import Mathlib

/-!
# The Raft log container (`src/raft_log.c`)

A shallow embedding of the log ADT of `raft_log.c` and theorems about it.

* `unsigned long` values are natural numbers; every sum is reduced modulo
  `ULONG_MOD = 2^64` (LP64) and every difference wraps (`ulong_sub`), exactly
  where the C code computes.
* The object behind `me->raft` (the consensus server together with the user
  data handed to every callback) is an abstract state `σ`.  Callbacks are
  functions on that state; a `NULL` function pointer is `none`.
* `calls` is a ghost history: every callback invocation and every upcall into
  the consensus server is appended to it, with its arguments and result.
-/

namespace RaftLog

/-- Number of values of a C `unsigned long` (LP64): `2^64`. -/
def ULONG_MOD : Nat := 18446744073709551616

/-- Subtraction `a - b` on `unsigned long` operands (both below `2^64`): the
result wraps around below 0, that is, it is `a + 2^64 - b` when `a < b`. -/
def ulong_sub (a b : Nat) : Nat :=
  if b ≤ a then a - b else a + ULONG_MOD - b

/-- Modelled from the spec: `raft_entry_data_t` is declared in `raft.h`, which is
not among the sources; the payload is a buffer address and a length. -/
structure raft_entry_data_t where
  buf : Nat
  len : Nat
deriving DecidableEq

/-- Modelled from the spec: `raft_entry_t` is declared in `raft.h`, which is not
among the sources; an entry has a term, an identifier, a type tag and a
payload. -/
structure raft_entry_t where
  term : Nat
  id : Nat
  type : Int
  data : raft_entry_data_t
deriving DecidableEq

/-- The all-zero entry: `raft_entry_t entry={0}` and a `calloc`ed array slot. -/
def raft_entry_zero : raft_entry_t :=
  { term := 0, id := 0, type := 0, data := { buf := 0, len := 0 } }

/-- Ghost record of one call that leaves the log module: the four callbacks of
`raft_cbs_t` (with the code they returned) and the two upcalls into the
consensus server. -/
inductive call_t where
  | log_offer (ety : raft_entry_t) (idx : Nat) (e : Int)
  | raft_offer_log (ety : raft_entry_t) (idx : Nat)
  | log_get (idx : Nat) (e : Int)
  | raft_pop_log (ety : raft_entry_t) (idx : Nat)
  | log_pop (idx : Nat) (e : Int)
  | log_poll (idx : Nat) (e : Int)
deriving DecidableEq

/-- The callbacks of `raft_cbs_t` that the log uses.  `none` is a `NULL`
function pointer.  A callback reads and updates the external state `σ`;
`log_offer` and `log_get` receive a pointer to an entry, so they also return
the contents of that entry after the call. -/
structure raft_cbs_t (σ : Type) where
  log_offer : Option (σ → raft_entry_t → Nat → Int × raft_entry_t × σ)
  log_get : Option (σ → raft_entry_t → Nat → Int × raft_entry_t × σ)
  log_pop : Option (σ → Nat → Int × σ)
  log_poll : Option (σ → Nat → Int × σ)

/-- Modelled from the spec: what `raft_log.c` uses from `raft.h` and
`raft_server.c`, which are not among the sources: the type tag
`RAFT_LOGTYPE_SNAPSHOT`, the two upcalls into the consensus server ("entry
accepted" and "entry removed"; their results are ignored by the log), and
whether the build defines `NDEBUG` (which disables `assert`). -/
structure raft_env (σ : Type) where
  RAFT_LOGTYPE_SNAPSHOT : Int
  raft_offer_log : σ → raft_entry_t → Nat → σ
  raft_pop_log : σ → raft_entry_t → Nat → σ
  NDEBUG : Bool

/-- The private state `log_private_t`.  `raft` is the state of the object that
the `raft` pointer designates; `calls` is the ghost history. -/
structure log_private_t (σ : Type) where
  count : Nat
  base : Nat
  cb : Option (raft_cbs_t σ)
  raft : σ
  calls : List call_t

variable {σ : Type}

/-- Function `log_clear`. -/
def log_clear (me : log_private_t σ) : log_private_t σ :=
  { me with count := 0, base := 0 }

/-- Function `log_new`: `calloc` zero-fills the structure (no callbacks), then
`log_clear`; `none` when the allocation fails.  `raft` is the state of the
server the log will later be bound to. -/
def log_new (calloc_ok : Bool) (raft : σ) : Option (log_private_t σ) :=
  if calloc_ok then
    some (log_clear { count := 0, base := 0, cb := none, raft := raft, calls := [] })
  else none

/-- Function `log_set_callbacks`. -/
def log_set_callbacks (me : log_private_t σ) (funcs : Option (raft_cbs_t σ)) (raft : σ) :
    log_private_t σ :=
  { me with raft := raft, cb := funcs }

/-- The offer callback, when `me->cb && me->cb->log_offer`. -/
def offer_hook (me : log_private_t σ) :
    Option (σ → raft_entry_t → Nat → Int × raft_entry_t × σ) :=
  match me.cb with
  | some cb => cb.log_offer
  | none => none

/-- The get callback, when `me->cb && me->cb->log_get`. -/
def get_hook (me : log_private_t σ) :
    Option (σ → raft_entry_t → Nat → Int × raft_entry_t × σ) :=
  match me.cb with
  | some cb => cb.log_get
  | none => none

/-- The pop callback, when `me->cb && me->cb->log_pop`. -/
def pop_hook (me : log_private_t σ) : Option (σ → Nat → Int × σ) :=
  match me.cb with
  | some cb => cb.log_pop
  | none => none

/-- The poll callback, when `me->cb && me->cb->log_poll`. -/
def poll_hook (me : log_private_t σ) : Option (σ → Nat → Int × σ) :=
  match me.cb with
  | some cb => cb.log_poll
  | none => none

/-- Function `log_append_entry`: returns the code and the new state. -/
def log_append_entry (env : raft_env σ) (me : log_private_t σ) (ety : raft_entry_t) :
    Int × log_private_t σ :=
  let idx := (me.base + me.count + 1) % ULONG_MOD
  match offer_hook me with
  | some offer =>
    let r := offer me.raft ety idx
    if r.1 ≠ 0 then
      (r.1, { me with raft := r.2.2, calls := me.calls ++ [call_t.log_offer ety idx r.1] })
    else
      (0, { me with
              count := (me.count + 1) % ULONG_MOD,
              raft := env.raft_offer_log r.2.2 r.2.1 idx,
              calls := me.calls ++
                [call_t.log_offer ety idx r.1, call_t.raft_offer_log r.2.1 idx] })
  | none => (0, { me with count := (me.count + 1) % ULONG_MOD })

/-- Function `log_get_at_idx`: returns the code, the contents of `*ety` after the
call, and the new state. -/
def log_get_at_idx (me : log_private_t σ) (idx : Nat) (ety : raft_entry_t) :
    Int × raft_entry_t × log_private_t σ :=
  if idx = 0 then (-1, ety, me)
  else if idx ≤ me.base then (-1, ety, me)
  else if (me.base + me.count) % ULONG_MOD < idx then (-1, ety, me)
  else
    match get_hook me with
    | some get =>
      let r := get me.raft ety idx
      (0, r.2.1, { me with raft := r.2.2, calls := me.calls ++ [call_t.log_get idx r.1] })
    | none => (-1, ety, me)

/-- The loop of `log_get_from_idx`: `n` remaining iterations, loop counter `i`;
slot `i` starts zeroed and is handed to `log_get_at_idx` for index `idx + i`. -/
def log_get_from_idx_loop (idx : Nat) :
    Nat → Nat → log_private_t σ → List raft_entry_t × log_private_t σ
  | 0, _, me => ([], me)
  | n + 1, i, me =>
    let g := log_get_at_idx me ((idx + i) % ULONG_MOD) raft_entry_zero
    let rest := log_get_from_idx_loop idx n (i + 1) g.2.2
    (g.2.1 :: rest.1, rest.2)

/-- Function `log_get_from_idx`: the outer `none` is the abort of
`assert(0 != idx)`; otherwise the returned array (`none` for `NULL`), the value
stored in `*n_etys`, and the new state.  `calloc_ok` says whether the
allocation of the array succeeds. -/
def log_get_from_idx (env : raft_env σ) (calloc_ok : Bool) (me : log_private_t σ)
    (idx : Nat) : Option (Option (List raft_entry_t) × Nat × log_private_t σ) :=
  if idx = 0 ∧ env.NDEBUG = false then none
  else if (me.base + me.count) % ULONG_MOD < idx ∨ idx < me.base then some (none, 0, me)
  else
    let total_count := (ulong_sub ((me.base + me.count) % ULONG_MOD) idx + 1) % ULONG_MOD
    if total_count = 0 then some (none, total_count, me)
    else if calloc_ok = false then some (none, total_count, me)
    else
      let r := log_get_from_idx_loop idx total_count 0 me
      some (some r.1, total_count, r.2)

/-- Function `log_count`. -/
def log_count (me : log_private_t σ) : Nat :=
  (me.count + me.base) % ULONG_MOD

/-- The loop of `log_delete`.  The first argument bounds the number of
iterations; `log_delete` passes `me->count`, which the loop never exceeds
because every completed iteration decrements a non-zero `count`. -/
def log_delete_loop (env : raft_env σ) :
    Nat → Nat → log_private_t σ → Int × log_private_t σ
  | 0, _, me => (0, me)
  | fuel + 1, idx, me =>
    if idx ≤ (me.base + me.count) % ULONG_MOD ∧ me.count ≠ 0 then
      let idx_tmp := (me.base + me.count) % ULONG_MOD
      let g := log_get_at_idx me idx_tmp raft_entry_zero
      let me1 : log_private_t σ :=
        { g.2.2 with
            raft := env.raft_pop_log g.2.2.raft g.2.1 idx_tmp,
            calls := g.2.2.calls ++ [call_t.raft_pop_log g.2.1 idx_tmp] }
      match pop_hook me1 with
      | some pop =>
        let r := pop me1.raft idx_tmp
        if r.1 ≠ 0 then
          (r.1, { me1 with raft := r.2, calls := me1.calls ++ [call_t.log_pop idx_tmp r.1] })
        else
          log_delete_loop env fuel idx
            { me1 with
                count := ulong_sub me1.count 1,
                raft := r.2,
                calls := me1.calls ++ [call_t.log_pop idx_tmp r.1] }
      | none =>
        log_delete_loop env fuel idx
          { me1 with count := ulong_sub me1.count 1 }
    else (0, me)

/-- Function `log_delete`. -/
def log_delete (env : raft_env σ) (me : log_private_t σ) (idx : Nat) :
    Int × log_private_t σ :=
  if idx = 0 then (-1, me)
  else
    let idx := if idx < me.base then me.base else idx
    log_delete_loop env me.count idx me

/-- Function `log_poll`. -/
def log_poll (me : log_private_t σ) : Int × log_private_t σ :=
  let idx := (me.base + 1) % ULONG_MOD
  if me.count = 0 then (-1, me)
  else
    match poll_hook me with
    | some poll =>
      let r := poll me.raft idx
      if r.1 ≠ 0 then
        (r.1, { me with raft := r.2, calls := me.calls ++ [call_t.log_poll idx r.1] })
      else
        (0, { me with
                count := ulong_sub me.count 1,
                base := (me.base + 1) % ULONG_MOD,
                raft := r.2,
                calls := me.calls ++ [call_t.log_poll idx r.1] })
    | none =>
      (0, { me with
              count := ulong_sub me.count 1,
              base := (me.base + 1) % ULONG_MOD })

/-- Function `log_empty`. -/
def log_empty (me : log_private_t σ) : log_private_t σ :=
  { me with count := 0 }

/-- Function `log_get_current_idx`. -/
def log_get_current_idx (me : log_private_t σ) : Nat :=
  (log_count me + me.base) % ULONG_MOD

/-- Function `log_get_base`. -/
def log_get_base (me : log_private_t σ) : Nat :=
  me.base

/-- The entry built on the stack by `log_load_from_snapshot`; `ety0` is the
indeterminate initial contents of the local variable (only `data.buf` keeps
it). -/
def snapshot_ety (env : raft_env σ) (term : Nat) (ety0 : raft_entry_t) : raft_entry_t :=
  { ety0 with
      data := { ety0.data with len := 0 },
      id := 1,
      term := term,
      type := env.RAFT_LOGTYPE_SNAPSHOT }

/-- Function `log_load_from_snapshot`: `none` is the abort of `assert(0)` (when
the append fails in a build without `NDEBUG`); otherwise the code and the new
state. -/
def log_load_from_snapshot (env : raft_env σ) (me : log_private_t σ) (idx term : Nat)
    (ety0 : raft_entry_t) : Option (Int × log_private_t σ) :=
  let me1 := log_clear me
  let ety := snapshot_ety env term ety0
  let r := log_append_entry env me1 ety
  if r.1 ≠ 0 then
    if env.NDEBUG then some (r.1, r.2) else none
  else
    some (0, { r.2 with base := ulong_sub idx 1 })

/-! ## Reading the ghost history -/

/-- The calls recorded between the state `before` and the later state `after`. -/
def calls_during (before after : log_private_t σ) : List call_t :=
  after.calls.drop before.calls.length

/-- The codes returned by the offer callback, in call order. -/
def offer_rets : List call_t → List Int
  | [] => []
  | call_t.log_offer _ _ e :: cs => e :: offer_rets cs
  | _ :: cs => offer_rets cs

/-- The logical indices handed to the offer callback, in call order. -/
def offer_idxs : List call_t → List Nat
  | [] => []
  | call_t.log_offer _ idx _ :: cs => idx :: offer_idxs cs
  | _ :: cs => offer_idxs cs

/-- The entries handed to the offer callback, in call order. -/
def offer_etys : List call_t → List raft_entry_t
  | [] => []
  | call_t.log_offer ety _ _ :: cs => ety :: offer_etys cs
  | _ :: cs => offer_etys cs

/-- The logical indices handed to the get callback, in call order. -/
def get_idxs : List call_t → List Nat
  | [] => []
  | call_t.log_get idx _ :: cs => idx :: get_idxs cs
  | _ :: cs => get_idxs cs

/-- The codes returned by the pop callback, in call order. -/
def pop_rets : List call_t → List Int
  | [] => []
  | call_t.log_pop _ e :: cs => e :: pop_rets cs
  | _ :: cs => pop_rets cs

/-- The logical indices handed to the pop callback, in call order. -/
def pop_idxs : List call_t → List Nat
  | [] => []
  | call_t.log_pop idx _ :: cs => idx :: pop_idxs cs
  | _ :: cs => pop_idxs cs

/-- The codes returned by the poll callback, in call order. -/
def poll_rets : List call_t → List Int
  | [] => []
  | call_t.log_poll _ e :: cs => e :: poll_rets cs
  | _ :: cs => poll_rets cs

/-- The logical indices handed to the poll callback, in call order. -/
def poll_idxs : List call_t → List Nat
  | [] => []
  | call_t.log_poll idx _ :: cs => idx :: poll_idxs cs
  | _ :: cs => poll_idxs cs

/-- The logical indices announced to `raft_pop_log`, in call order: one per
iteration of the loop of `log_delete`. -/
def raft_pop_log_idxs : List call_t → List Nat
  | [] => []
  | call_t.raft_pop_log _ idx :: cs => idx :: raft_pop_log_idxs cs
  | _ :: cs => raft_pop_log_idxs cs

/-- The `n` newest logical indices of a window with base `b` and count `c`,
newest first, as `log_delete` computes them: `b + c`, `b + (c - 1)`, ... -/
def tail_idxs (b c n : Nat) : List Nat :=
  (List.range n).map (fun j => (b + (c - j)) % ULONG_MOD)

/-- Consecutive calls of `log_append_entry`, one per entry of the list: the
codes returned, in order, and the final state. -/
def log_append_entries (env : raft_env σ) (me : log_private_t σ) :
    List raft_entry_t → List Int × log_private_t σ
  | [] => ([], me)
  | ety :: etys =>
    let r := log_append_entry env me ety
    let rs := log_append_entries env r.2 etys
    (r.1 :: rs.1, rs.2)

/-- The state in the body of the loop of `log_delete` after the tail entry has
been read with `log_get_at_idx` and `raft_pop_log` has been notified, before
the pop callback is consulted. -/
def log_delete_read (env : raft_env σ) (me : log_private_t σ) : log_private_t σ :=
  let idx_tmp := (me.base + me.count) % ULONG_MOD
  let g := log_get_at_idx me idx_tmp raft_entry_zero
  { g.2.2 with
      raft := env.raft_pop_log g.2.2.raft g.2.1 idx_tmp,
      calls := g.2.2.calls ++ [call_t.raft_pop_log g.2.1 idx_tmp] }

/-- The public operations that mutate the log without resetting it. -/
inductive log_op where
  | append (ety : raft_entry_t)
  | delete (idx : Nat)
  | poll
  | empty

/-- The state after one operation of `log_op`. -/
def log_step (env : raft_env σ) (me : log_private_t σ) : log_op → log_private_t σ
  | log_op.append ety => (log_append_entry env me ety).2
  | log_op.delete idx => (log_delete env me idx).2
  | log_op.poll => (log_poll me).2
  | log_op.empty => log_empty me

/-- The state after a sequence of operations of `log_op`. -/
def log_steps (env : raft_env σ) (me : log_private_t σ) : List log_op → log_private_t σ
  | [] => me
  | op :: ops => log_steps env (log_step env me op) ops

/-! ## Concrete environments used to evaluate the code -/

/-- A consensus server whose state is a call counter; the upcalls leave it
unchanged and `assert` is enabled. -/
def ex_env : raft_env Nat :=
  { RAFT_LOGTYPE_SNAPSHOT := 1,
    raft_offer_log := fun s _ _ => s,
    raft_pop_log := fun s _ _ => s,
    NDEBUG := false }

/-- As `ex_env`, for a build that defines `NDEBUG`. -/
def ex_env_ndebug : raft_env Nat :=
  { ex_env with NDEBUG := true }

/-- Callbacks over the call counter that all accept; get supplies an entry whose
identifier is the requested index (term 7). -/
def ex_cbs : raft_cbs_t Nat :=
  { log_offer := some (fun s e _ => (0, e, s)),
    log_get := some (fun s e i => (0, { e with id := i, term := 7 }, s)),
    log_pop := some (fun s _ => (0, s + 1)),
    log_poll := some (fun s _ => (0, s)) }

/-- As `ex_cbs`, but pop counts its calls, accepts the first two and fails with
code 5 on the third. -/
def ex_cbs_pop_fail : raft_cbs_t Nat :=
  { ex_cbs with log_pop := some (fun s _ => (if s = 2 then 5 else 0, s + 1)) }

/-- Callbacks that reject: offer fails with code 3 and poll with code 4; get and
pop are not bound. -/
def ex_cbs_reject : raft_cbs_t Nat :=
  { log_offer := some (fun s e _ => (3, e, s)),
    log_get := none,
    log_pop := none,
    log_poll := some (fun s _ => (4, s)) }

/-- A log with the given base and count, bound to `ex_cbs`. -/
def ex_log (b c : Nat) : log_private_t Nat :=
  { count := c, base := b, cb := some ex_cbs, raft := 0, calls := [] }

/-- As `ex_cbs`, but get fills the slot and returns the failure code -1. -/
def ex_cbs_get_fail : raft_cbs_t Nat :=
  { ex_cbs with log_get := some (fun s e i => (-1, { e with id := i, term := 7 }, s)) }

/-- A log with the given base and count, bound to `ex_cbs_get_fail`. -/
def ex_log_get_fail (b c : Nat) : log_private_t Nat :=
  { count := c, base := b, cb := some ex_cbs_get_fail, raft := 0, calls := [] }

/-- A log with the given base and count, bound to `ex_cbs_pop_fail`. -/
def ex_log_pop_fail (b c : Nat) : log_private_t Nat :=
  { count := c, base := b, cb := some ex_cbs_pop_fail, raft := 0, calls := [] }

/-- A log with the given base and count, bound to `ex_cbs_reject`. -/
def ex_log_reject (b c : Nat) : log_private_t Nat :=
  { count := c, base := b, cb := some ex_cbs_reject, raft := 0, calls := [] }

/-- A log with the given base and count and no callbacks. -/
def ex_log_unbound (b c : Nat) : log_private_t Nat :=
  { count := c, base := b, cb := none, raft := 0, calls := [] }

/-- An ordinary entry with the given identifier. -/
def ex_ety (id : Nat) : raft_entry_t :=
  { term := 1, id := id, type := 0, data := { buf := 0, len := 0 } }

/-! ## Basic facts -/

theorem calls_during_append {before after : log_private_t σ} {evs : List call_t}
    (h : after.calls = before.calls ++ evs) : calls_during before after = evs := by
  simp [calls_during, h]

theorem calls_during_self (me : log_private_t σ) : calls_during me me = [] := by
  simp [calls_during]

/-- Function `log_get_current_idx` adds the base twice. -/
theorem log_get_current_idx_eq (me : log_private_t σ) :
    log_get_current_idx me = (me.count + me.base + me.base) % ULONG_MOD := by
  simp [log_get_current_idx, log_count, Nat.add_mod]

/-! ## C1 -/

/-- C1 (the code diverges): on a fresh log, one append followed by one
successful poll leaves `base = 1`, `count = 0`, yet `log_get_current_idx`
returns 2 and not `base + count = 1`; and after `log_load_from_snapshot(10, 3)`
(`base = 9`, `count = 1`) it returns 19 and not 10. -/
theorem log_get_current_idx_counts_base_twice :
    ((log_new true (0 : Nat)).map fun me =>
        let p := (log_poll (log_append_entry ex_env me (ex_ety 1)).2).2
        (p.base, p.count, log_get_current_idx p)) = some (1, 0, 2)
    ∧ ((log_new true (0 : Nat)).bind fun me =>
        (log_load_from_snapshot ex_env me 10 3 raft_entry_zero).map fun r =>
          (r.1, r.2.base, r.2.count, log_get_current_idx r.2)) = some (0, 9, 1, 19) := by
  decide

/-! ## C3 -/

/-- Every call of `log_append_entry` extends the history, by nothing when no
offer callback is bound. -/
theorem log_append_entry_calls (env : raft_env σ) (me : log_private_t σ) (ety : raft_entry_t) :
    ∃ evs, (log_append_entry env me ety).2.calls = me.calls ++ evs := by
  unfold log_append_entry
  cases h : offer_hook me with
  | none => exact ⟨[], by simp⟩
  | some offer =>
    by_cases hr : (offer me.raft ety ((me.base + me.count + 1) % ULONG_MOD)).1 = 0
    · exact ⟨_, by simp [hr]; rfl⟩
    · exact ⟨_, by simp [hr]; rfl⟩

/-- C3: if an offer callback is bound and the code `e` it returns during
`log_append_entry` is non-zero, then `log_append_entry` returns exactly `e`
and leaves `count` and `base` unchanged. -/
theorem log_append_entry_offer_rejected (env : raft_env σ) (me : log_private_t σ)
    (ety : raft_entry_t) (e : Int)
    (hbound : (offer_hook me).isSome)
    (hret : e ∈ offer_rets (calls_during me (log_append_entry env me ety).2))
    (he : e ≠ 0) :
    (log_append_entry env me ety).1 = e
      ∧ (log_append_entry env me ety).2.count = me.count
      ∧ (log_append_entry env me ety).2.base = me.base := by
  cases h : offer_hook me with
  | none => simp [h] at hbound
  | some offer =>
    by_cases hr : (offer me.raft ety ((me.base + me.count + 1) % ULONG_MOD)).1 = 0
    · have hc : calls_during me (log_append_entry env me ety).2
          = [call_t.log_offer ety ((me.base + me.count + 1) % ULONG_MOD) 0,
             call_t.raft_offer_log
               (offer me.raft ety ((me.base + me.count + 1) % ULONG_MOD)).2.1
               ((me.base + me.count + 1) % ULONG_MOD)] := by
        apply calls_during_append
        simp [log_append_entry, h, hr]
      rw [hc] at hret
      simp [offer_rets] at hret
      exact absurd hret he
    · have hc : calls_during me (log_append_entry env me ety).2
          = [call_t.log_offer ety ((me.base + me.count + 1) % ULONG_MOD)
               (offer me.raft ety ((me.base + me.count + 1) % ULONG_MOD)).1] := by
        apply calls_during_append
        simp [log_append_entry, h, hr]
      rw [hc] at hret
      simp [offer_rets] at hret
      simp [log_append_entry, h, hr, hret]

/-- Witness for C3: the rejecting callback set returns code 3 on a log with
base 4 and count 2. -/
theorem log_append_entry_offer_rejected_witness :
    (log_append_entry ex_env (ex_log_reject 4 2) (ex_ety 9)).1 = 3
      ∧ (log_append_entry ex_env (ex_log_reject 4 2) (ex_ety 9)).2.count = 2
      ∧ (log_append_entry ex_env (ex_log_reject 4 2) (ex_ety 9)).2.base = 4 :=
  log_append_entry_offer_rejected ex_env (ex_log_reject 4 2) (ex_ety 9) 3
    (by decide) (by decide) (by decide)

/-! ## C4 -/

/-- Function `log_get_at_idx` never changes `count`, `base` or the bound
callbacks. -/
theorem log_get_at_idx_frame (me : log_private_t σ) (idx : Nat) (ety : raft_entry_t) :
    (log_get_at_idx me idx ety).2.2.count = me.count
      ∧ (log_get_at_idx me idx ety).2.2.base = me.base
      ∧ (log_get_at_idx me idx ety).2.2.cb = me.cb := by
  unfold log_get_at_idx
  split_ifs <;> try simp
  cases get_hook me <;> simp

/-- C4: `log_get_at_idx` returns -1 and invokes nothing (the state, its history
included, and the output slot are untouched) whenever `idx == 0`, or
`idx <= base`, or `idx > base + count`; it also returns -1, invoking nothing,
for every `idx` inside the live window when no callback set or no get callback
is bound; and it never changes `count` or `base`. -/
theorem log_get_at_idx_fails (me : log_private_t σ) (idx : Nat) (ety : raft_entry_t) :
    ((idx = 0 ∨ idx ≤ me.base ∨ me.base + me.count < idx) →
        log_get_at_idx me idx ety = (-1, ety, me))
      ∧ ((∀ cb, me.cb = some cb → cb.log_get = none) →
          me.base < idx → idx ≤ me.base + me.count →
          log_get_at_idx me idx ety = (-1, ety, me))
      ∧ (log_get_at_idx me idx ety).2.2.count = me.count
      ∧ (log_get_at_idx me idx ety).2.2.base = me.base := by
  refine ⟨?_, ?_, (log_get_at_idx_frame me idx ety).1, (log_get_at_idx_frame me idx ety).2.1⟩
  · intro h
    unfold log_get_at_idx
    rcases h with h | h | h
    · simp [h]
    · simp [h]
    · have : (me.base + me.count) % ULONG_MOD < idx :=
        lt_of_le_of_lt (Nat.mod_le _ _) h
      simp [this]
  · intro h _ _
    have hg : get_hook me = none := by
      unfold get_hook
      cases hcb : me.cb with
      | none => rfl
      | some cb => simpa using h cb hcb
    unfold log_get_at_idx
    split_ifs <;> simp [hg]

/-- Witness for C4: index 0, a compacted index and an index past the window on a
bound log (base 4, count 2), and a live index on a log without callbacks. -/
theorem log_get_at_idx_fails_witness :
    ((log_get_at_idx (ex_log 4 2) 0 (ex_ety 9)).1 = -1
      ∧ (log_get_at_idx (ex_log 4 2) 4 (ex_ety 9)).1 = -1
      ∧ (log_get_at_idx (ex_log 4 2) 7 (ex_ety 9)).1 = -1)
    ∧ (log_get_at_idx (ex_log_unbound 4 2) 5 (ex_ety 9)).1 = -1 :=
  ⟨⟨by rw [(log_get_at_idx_fails (ex_log 4 2) 0 (ex_ety 9)).1 (Or.inl rfl)],
    by rw [(log_get_at_idx_fails (ex_log 4 2) 4 (ex_ety 9)).1 (Or.inr (Or.inl (by decide)))],
    by rw [(log_get_at_idx_fails (ex_log 4 2) 7 (ex_ety 9)).1 (Or.inr (Or.inr (by decide)))]⟩,
   by rw [(log_get_at_idx_fails (ex_log_unbound 4 2) 5 (ex_ety 9)).2.1
        (by intro cb h; cases h) (by decide) (by decide)]⟩

/-! ## C6 -/

/-- Every call of `log_poll` keeps the callbacks and extends the history. -/
theorem log_poll_calls (me : log_private_t σ) :
    ∃ evs, (log_poll me).2.calls = me.calls ++ evs := by
  unfold log_poll
  by_cases hc : me.count = 0
  · exact ⟨[], by simp [hc]⟩
  · cases h : poll_hook me with
    | none => exact ⟨[], by simp [hc]⟩
    | some poll =>
      by_cases hr : (poll me.raft ((me.base + 1) % ULONG_MOD)).1 = 0
      · exact ⟨_, by simp [hc, hr]; rfl⟩
      · exact ⟨_, by simp [hc, hr]; rfl⟩

/-- C6: `log_poll` fails without changing state.  With `count == 0` it returns
-1 and invokes nothing (the whole state, history included, is untouched).
With `count > 0`, if the code `e` returned by the bound poll callback is
non-zero, it returns exactly `e`; `count` and `base` are unchanged. -/
theorem log_poll_fails (me : log_private_t σ) :
    (me.count = 0 → log_poll me = (-1, me))
      ∧ (∀ e : Int, me.count ≠ 0 → e ≠ 0 → e ∈ poll_rets (calls_during me (log_poll me).2) →
          (log_poll me).1 = e
            ∧ (log_poll me).2.count = me.count
            ∧ (log_poll me).2.base = me.base) := by
  constructor
  · intro h
    simp [log_poll, h]
  · intro e hc he hret
    cases h : poll_hook me with
    | none =>
      have : calls_during me (log_poll me).2 = [] := by
        apply calls_during_append
        simp [log_poll, hc, h]
      simp [this, poll_rets] at hret
    | some poll =>
      by_cases hr : (poll me.raft ((me.base + 1) % ULONG_MOD)).1 = 0
      · have : calls_during me (log_poll me).2
            = [call_t.log_poll ((me.base + 1) % ULONG_MOD) 0] := by
          apply calls_during_append
          simp [log_poll, hc, h, hr]
        simp [this, poll_rets] at hret
        exact absurd hret he
      · have : calls_during me (log_poll me).2
            = [call_t.log_poll ((me.base + 1) % ULONG_MOD)
                (poll me.raft ((me.base + 1) % ULONG_MOD)).1] := by
          apply calls_during_append
          simp [log_poll, hc, h, hr]
        simp [this, poll_rets] at hret
        simp [log_poll, hc, h, hr, hret]

/-- Witness for C6: an empty log (base 1), and a log with one live entry whose
poll callback fails with code 4. -/
theorem log_poll_fails_witness :
    (log_poll (ex_log 1 0)).1 = -1
      ∧ ((log_poll (ex_log_reject 1 1)).1 = 4
          ∧ (log_poll (ex_log_reject 1 1)).2.count = 1
          ∧ (log_poll (ex_log_reject 1 1)).2.base = 1) :=
  ⟨by rw [(log_poll_fails (ex_log 1 0)).1 rfl],
   (log_poll_fails (ex_log_reject 1 1)).2 4 (by decide) (by decide) (by decide)⟩

/-! ## C5 -/

/-- On a machine word, decrementing a non-zero value does not wrap. -/
theorem ulong_dec {c : Nat} (h0 : c ≠ 0) :
    ulong_sub c 1 = c - 1 := by
  unfold ulong_sub
  rw [if_pos (by omega)]

/-- C5 (as amended): for every state with `0 < count`, when the poll callback
is absent or the code it returns is 0, `log_poll` returns 0, hands index
`(old_base + 1) mod 2^64` to the callback (if bound, and calls nothing else),
sets `base` to `(old_base + 1) mod 2^64` (which is `old_base + 1` unless
`old_base = 2^64 - 1`) and decreases `count` by exactly 1, so that
`base + count` is unchanged modulo `2^64`; afterwards `log_get_at_idx` at that
index returns -1 whatever callbacks are then bound. -/
theorem log_poll_succeeds (me : log_private_t σ)
    (hc : me.count ≠ 0)
    (hacc : ∀ e ∈ poll_rets (calls_during me (log_poll me).2), e = 0) :
    (log_poll me).1 = 0
      ∧ (calls_during me (log_poll me).2 =
          if (poll_hook me).isSome then [call_t.log_poll ((me.base + 1) % ULONG_MOD) 0] else [])
      ∧ (log_poll me).2.base = (me.base + 1) % ULONG_MOD
      ∧ (me.base + 1 < ULONG_MOD → (log_poll me).2.base = me.base + 1)
      ∧ (log_poll me).2.count + 1 = me.count
      ∧ ((log_poll me).2.base + (log_poll me).2.count) % ULONG_MOD
          = (me.base + me.count) % ULONG_MOD
      ∧ ∀ (funcs : Option (raft_cbs_t σ)) (raft : σ) (ety : raft_entry_t),
          (log_get_at_idx (log_set_callbacks (log_poll me).2 funcs raft)
            ((me.base + 1) % ULONG_MOD) ety).1 = -1 := by
  have hdec := ulong_dec hc
  have key : (log_poll me).1 = 0
      ∧ (calls_during me (log_poll me).2 =
          if (poll_hook me).isSome then [call_t.log_poll ((me.base + 1) % ULONG_MOD) 0] else [])
      ∧ (log_poll me).2.base = (me.base + 1) % ULONG_MOD
      ∧ (log_poll me).2.count = me.count - 1 := by
    cases h : poll_hook me with
    | none =>
      refine ⟨by simp [log_poll, hc, h], ?_, by simp [log_poll, hc, h],
        by simp [log_poll, hc, h, hdec]⟩
      apply calls_during_append
      simp [log_poll, hc, h]
    | some poll =>
      by_cases hr : (poll me.raft ((me.base + 1) % ULONG_MOD)).1 = 0
      · refine ⟨by simp [log_poll, hc, h, hr], ?_, by simp [log_poll, hc, h, hr],
          by simp [log_poll, hc, h, hr, hdec]⟩
        apply calls_during_append
        simp [log_poll, hc, h, hr]
      · exfalso
        have hcd : calls_during me (log_poll me).2
            = [call_t.log_poll ((me.base + 1) % ULONG_MOD)
                (poll me.raft ((me.base + 1) % ULONG_MOD)).1] := by
          apply calls_during_append
          simp [log_poll, hc, h, hr]
        exact hr (hacc _ (by simp [hcd, poll_rets]))
  obtain ⟨h1, h2, h3, h4⟩ := key
  refine ⟨h1, h2, h3, ?_, ?_, ?_, ?_⟩
  · intro hb
    rw [h3, Nat.mod_eq_of_lt hb]
  · omega
  · rw [h3, h4]
    have : me.base + 1 + (me.count - 1) = me.base + me.count := by omega
    rw [Nat.mod_add_mod, this]
  · intro funcs raft ety
    unfold log_get_at_idx
    by_cases hz : (me.base + 1) % ULONG_MOD = 0
    · simp [hz]
    · have : (me.base + 1) % ULONG_MOD ≤ (log_set_callbacks (log_poll me).2 funcs raft).base := by
        simp [log_set_callbacks, h3]
      simp [hz, this]

/-- Witness for C5: a log with base 4 and two live entries. -/
theorem log_poll_succeeds_witness :
    (log_poll (ex_log 4 2)).1 = 0
      ∧ (log_poll (ex_log 4 2)).2.base = 5
      ∧ (log_poll (ex_log 4 2)).2.count + 1 = 2 :=
  have h := log_poll_succeeds (ex_log 4 2) (by decide) (by decide)
  ⟨h.1, h.2.2.2.1 (by decide), h.2.2.2.2.1⟩

/-- C5 (counterexample to the claim as stated): with `base = 2^64 - 1` and one
live entry, a successful `log_poll` hands index 0 to the poll callback and
leaves `base = 0`, not `old_base + 1`. -/
theorem log_poll_base_wraps :
    (log_poll (ex_log 18446744073709551615 1)).1 = 0
      ∧ (log_poll (ex_log 18446744073709551615 1)).2.base = 0
      ∧ (log_poll (ex_log 18446744073709551615 1)).2.base
          ≠ (ex_log 18446744073709551615 1).base + 1
      ∧ poll_idxs (log_poll (ex_log 18446744073709551615 1)).2.calls = [0] := by
  decide

/-! ## C2 -/

theorem offer_rets_append (a b : List call_t) :
    offer_rets (a ++ b) = offer_rets a ++ offer_rets b := by
  induction a with
  | nil => rfl
  | cons x xs ih => cases x <;> simp [offer_rets, ih]

theorem offer_idxs_append (a b : List call_t) :
    offer_idxs (a ++ b) = offer_idxs a ++ offer_idxs b := by
  induction a with
  | nil => rfl
  | cons x xs ih => cases x <;> simp [offer_idxs, ih]

theorem offer_etys_append (a b : List call_t) :
    offer_etys (a ++ b) = offer_etys a ++ offer_etys b := by
  induction a with
  | nil => rfl
  | cons x xs ih => cases x <;> simp [offer_etys, ih]

/-- Function `log_append_entry` never changes `base` or the bound callbacks. -/
theorem log_append_entry_frame (env : raft_env σ) (me : log_private_t σ) (ety : raft_entry_t) :
    (log_append_entry env me ety).2.base = me.base
      ∧ (log_append_entry env me ety).2.cb = me.cb := by
  unfold log_append_entry
  cases h : offer_hook me with
  | none => simp
  | some offer =>
    by_cases hr : (offer me.raft ety ((me.base + me.count + 1) % ULONG_MOD)).1 = 0
    · simp [hr]
    · simp [hr]

theorem offer_hook_congr {a b : log_private_t σ} (h : a.cb = b.cb) :
    offer_hook a = offer_hook b := by
  simp [offer_hook, h]

/-- One accepted append: what `log_append_entry` does when the offer callback is
absent or the code it returns is 0. -/
theorem log_append_entry_accepted (env : raft_env σ) (me : log_private_t σ)
    (ety : raft_entry_t) (evs : List call_t)
    (hevs : (log_append_entry env me ety).2.calls = me.calls ++ evs)
    (hacc : ∀ e ∈ offer_rets evs, e = 0) :
    (log_append_entry env me ety).1 = 0
      ∧ (log_append_entry env me ety).2.count = (me.count + 1) % ULONG_MOD
      ∧ offer_idxs evs =
          (if (offer_hook me).isSome then [(me.base + me.count + 1) % ULONG_MOD] else [])
      ∧ offer_etys evs = (if (offer_hook me).isSome then [ety] else []) := by
  cases h : offer_hook me with
  | none =>
    have : evs = [] := by
      have h2 : (log_append_entry env me ety).2.calls = me.calls := by
        simp [log_append_entry, h]
      rw [h2] at hevs
      simpa using hevs.symm
    subst this
    simp [log_append_entry, h, offer_idxs, offer_etys]
  | some offer =>
    by_cases hr : (offer me.raft ety ((me.base + me.count + 1) % ULONG_MOD)).1 = 0
    · have h2 : (log_append_entry env me ety).2.calls = me.calls ++
          [call_t.log_offer ety ((me.base + me.count + 1) % ULONG_MOD) 0,
           call_t.raft_offer_log
             (offer me.raft ety ((me.base + me.count + 1) % ULONG_MOD)).2.1
             ((me.base + me.count + 1) % ULONG_MOD)] := by
        simp [log_append_entry, h, hr]
      rw [h2] at hevs
      have := List.append_cancel_left hevs
      subst this
      simp [log_append_entry, h, hr, offer_idxs, offer_etys]
    · exfalso
      have h2 : (log_append_entry env me ety).2.calls = me.calls ++
          [call_t.log_offer ety ((me.base + me.count + 1) % ULONG_MOD)
            (offer me.raft ety ((me.base + me.count + 1) % ULONG_MOD)).1] := by
        simp [log_append_entry, h, hr]
      rw [h2] at hevs
      have := List.append_cancel_left hevs
      subst this
      exact hr (hacc _ (by simp [offer_rets]))

/-- Consecutive appends extend the history. -/
theorem log_append_entries_calls (env : raft_env σ) :
    ∀ (etys : List raft_entry_t) (me : log_private_t σ),
      ∃ evs, (log_append_entries env me etys).2.calls = me.calls ++ evs := by
  intro etys
  induction etys with
  | nil => intro me; exact ⟨[], by simp [log_append_entries]⟩
  | cons ety etys ih =>
    intro me
    obtain ⟨a, ha⟩ := log_append_entry_calls env me ety
    obtain ⟨b, hb⟩ := ih (log_append_entry env me ety).2
    exact ⟨a ++ b, by simp [log_append_entries, hb, ha]⟩

/-- Consecutive accepted appends, in `unsigned long` arithmetic. -/
theorem log_append_entries_accepted (env : raft_env σ) :
    ∀ (etys : List raft_entry_t) (me : log_private_t σ) (evs : List call_t),
      me.count < ULONG_MOD →
      (log_append_entries env me etys).2.calls = me.calls ++ evs →
      (∀ e ∈ offer_rets evs, e = 0) →
      (log_append_entries env me etys).1 = List.replicate etys.length 0
        ∧ (log_append_entries env me etys).2.base = me.base
        ∧ (log_append_entries env me etys).2.count = (me.count + etys.length) % ULONG_MOD
        ∧ offer_idxs evs =
            (if (offer_hook me).isSome then
              (List.range etys.length).map
                (fun k => (me.base + me.count + (k + 1)) % ULONG_MOD)
             else [])
        ∧ offer_etys evs = (if (offer_hook me).isSome then etys else []) := by
  intro etys
  induction etys with
  | nil =>
    intro me evs hcw hevs _
    have : evs = [] := by simpa [log_append_entries] using hevs.symm
    subst this
    simp [log_append_entries, offer_idxs, offer_etys, Nat.mod_eq_of_lt hcw]
  | cons ety etys ih =>
    intro me evs hcw hevs hacc
    obtain ⟨a, ha⟩ := log_append_entry_calls env me ety
    obtain ⟨b, hb⟩ := log_append_entries_calls env etys (log_append_entry env me ety).2
    have hab : evs = a ++ b := by
      have : (log_append_entries env me (ety :: etys)).2.calls = me.calls ++ (a ++ b) := by
        simp [log_append_entries, hb, ha]
      rw [this] at hevs
      exact (List.append_cancel_left hevs).symm
    subst hab
    have hacc_a : ∀ e ∈ offer_rets a, e = 0 := fun e he =>
      hacc e (by rw [offer_rets_append]; exact List.mem_append_left _ he)
    have hacc_b : ∀ e ∈ offer_rets b, e = 0 := fun e he =>
      hacc e (by rw [offer_rets_append]; exact List.mem_append_right _ he)
    obtain ⟨s1, s2, s3, s4⟩ := log_append_entry_accepted env me ety a ha hacc_a
    obtain ⟨f1, f2⟩ := log_append_entry_frame env me ety
    have hcw1 : (log_append_entry env me ety).2.count < ULONG_MOD := by
      rw [s2]
      exact Nat.mod_lt _ (by unfold ULONG_MOD; omega)
    obtain ⟨t1, t2, t3, t4, t5⟩ := ih (log_append_entry env me ety).2 b hcw1 hb hacc_b
    have hh : offer_hook (log_append_entry env me ety).2 = offer_hook me :=
      offer_hook_congr f2
    rw [hh, f1, s2] at t4
    rw [hh] at t5
    refine ⟨?_, ?_, ?_, ?_, ?_⟩
    · simp [log_append_entries, s1, t1, List.replicate_succ]
    · simp [log_append_entries, t2, f1]
    · simp only [log_append_entries, t3, s2, List.length_cons]
      unfold ULONG_MOD
      omega
    · rw [offer_idxs_append, s3, t4]
      cases hb : (offer_hook me).isSome
      · simp
      · simp only [if_true, List.length_cons, List.range_succ_eq_map, List.map_cons,
          List.map_map, List.singleton_append]
        congr 1
        apply List.map_congr_left
        intro k _
        simp only [Function.comp]
        unfold ULONG_MOD
        omega
    · rw [offer_etys_append, s4, t5]
      cases hb : (offer_hook me).isSome <;> simp

/-- C2 (as amended): for every state (`count` a machine word) and every list of
`n` entries appended by consecutive calls of `log_append_entry`, when the
offer callback is absent or every code it returns is 0, all `n` calls return
0, `base` is unchanged, `count` ends at `(c + n) mod 2^64`, and the `k`-th call
(`1 <= k <= n`) hands index `(b + c + k) mod 2^64` and the `k`-th entry to the
offer callback; whenever `b + c + n < 2^64` these are `c + n` and `b + c + k`
as the claim states, so that `base + count` ends at `b + c + n`. -/
theorem log_append_entries_succeed (env : raft_env σ) (me : log_private_t σ)
    (etys : List raft_entry_t) (hcw : me.count < ULONG_MOD)
    (hacc : ∀ e ∈ offer_rets (calls_during me (log_append_entries env me etys).2), e = 0) :
    (log_append_entries env me etys).1 = List.replicate etys.length 0
      ∧ (log_append_entries env me etys).2.base = me.base
      ∧ (log_append_entries env me etys).2.count = (me.count + etys.length) % ULONG_MOD
      ∧ offer_idxs (calls_during me (log_append_entries env me etys).2) =
          (if (offer_hook me).isSome then
            (List.range etys.length).map (fun k => (me.base + me.count + (k + 1)) % ULONG_MOD)
           else [])
      ∧ offer_etys (calls_during me (log_append_entries env me etys).2) =
          (if (offer_hook me).isSome then etys else [])
      ∧ (me.base + me.count + etys.length < ULONG_MOD →
          (log_append_entries env me etys).2.count = me.count + etys.length
            ∧ (log_append_entries env me etys).2.base + (log_append_entries env me etys).2.count
                = me.base + me.count + etys.length
            ∧ offer_idxs (calls_during me (log_append_entries env me etys).2) =
                (if (offer_hook me).isSome then
                  (List.range etys.length).map (fun k => me.base + me.count + (k + 1))
                 else [])) := by
  obtain ⟨evs, hevs⟩ := log_append_entries_calls env etys me
  have hcd := calls_during_append hevs
  rw [hcd] at hacc ⊢
  obtain ⟨h1, h2, h3, h4, h5⟩ := log_append_entries_accepted env etys me evs hcw hevs hacc
  refine ⟨h1, h2, h3, h4, h5, ?_⟩
  intro hfit
  have hc : (log_append_entries env me etys).2.count = me.count + etys.length := by
    rw [h3]
    exact Nat.mod_eq_of_lt (by omega)
  refine ⟨hc, by rw [h2, hc]; omega, ?_⟩
  rw [h4]
  cases (offer_hook me).isSome
  · simp
  · simp only [if_true]
    apply List.map_congr_left
    intro k hk
    have hk2 : k < etys.length := List.mem_range.mp hk
    exact Nat.mod_eq_of_lt (by omega)

/-- Witness for C2: three appends on a log with base 4 and count 2. -/
theorem log_append_entries_succeed_witness :
    (log_append_entries ex_env (ex_log 4 2) [ex_ety 1, ex_ety 2, ex_ety 3]).1 = [0, 0, 0]
      ∧ (log_append_entries ex_env (ex_log 4 2) [ex_ety 1, ex_ety 2, ex_ety 3]).2.base = 4
      ∧ (log_append_entries ex_env (ex_log 4 2) [ex_ety 1, ex_ety 2, ex_ety 3]).2.count = 5
      ∧ offer_idxs (calls_during (ex_log 4 2)
          (log_append_entries ex_env (ex_log 4 2) [ex_ety 1, ex_ety 2, ex_ety 3]).2)
          = [7, 8, 9] :=
  have h := log_append_entries_succeed ex_env (ex_log 4 2) [ex_ety 1, ex_ety 2, ex_ety 3]
    (by decide) (by decide)
  ⟨h.1, h.2.1, (h.2.2.2.2.2 (by decide)).1, (h.2.2.2.2.2 (by decide)).2.2⟩

/-- C2 (counterexample to the claim as stated): in the state left by
`log_load_from_snapshot(2^64 - 1, term)` (`base = 2^64 - 2`, `count = 1`) one
successful append hands index 0 to the offer callback, not
`base + count + 1 = 2^64`. -/
theorem log_append_entry_index_wraps :
    (log_append_entries ex_env (ex_log 18446744073709551614 1) [ex_ety 1]).1 = [0]
      ∧ offer_idxs (log_append_entries ex_env (ex_log 18446744073709551614 1) [ex_ety 1]).2.calls
          = [0]
      ∧ offer_idxs (log_append_entries ex_env (ex_log 18446744073709551614 1) [ex_ety 1]).2.calls
          ≠ [(ex_log 18446744073709551614 1).base + (ex_log 18446744073709551614 1).count + 1] := by
  decide

/-! ## The loop of `log_delete` -/

theorem pop_rets_append (a b : List call_t) :
    pop_rets (a ++ b) = pop_rets a ++ pop_rets b := by
  induction a with
  | nil => rfl
  | cons x xs ih => cases x <;> simp [pop_rets, ih]

theorem pop_idxs_append (a b : List call_t) :
    pop_idxs (a ++ b) = pop_idxs a ++ pop_idxs b := by
  induction a with
  | nil => rfl
  | cons x xs ih => cases x <;> simp [pop_idxs, ih]

theorem raft_pop_log_idxs_append (a b : List call_t) :
    raft_pop_log_idxs (a ++ b) = raft_pop_log_idxs a ++ raft_pop_log_idxs b := by
  induction a with
  | nil => rfl
  | cons x xs ih => cases x <;> simp [raft_pop_log_idxs, ih]

theorem get_idxs_append (a b : List call_t) :
    get_idxs (a ++ b) = get_idxs a ++ get_idxs b := by
  induction a with
  | nil => rfl
  | cons x xs ih => cases x <;> simp [get_idxs, ih]

/-- Function `log_get_at_idx` records at most one call, of the get callback. -/
theorem log_get_at_idx_calls (me : log_private_t σ) (idx : Nat) (ety : raft_entry_t) :
    ∃ evs, (log_get_at_idx me idx ety).2.2.calls = me.calls ++ evs
      ∧ pop_rets evs = [] ∧ pop_idxs evs = [] ∧ raft_pop_log_idxs evs = [] := by
  unfold log_get_at_idx
  split_ifs
  · exact ⟨[], by simp, rfl, rfl, rfl⟩
  · exact ⟨[], by simp, rfl, rfl, rfl⟩
  · exact ⟨[], by simp, rfl, rfl, rfl⟩
  · cases get_hook me with
    | none => exact ⟨[], by simp, rfl, rfl, rfl⟩
    | some get => exact ⟨_, rfl, rfl, rfl, rfl⟩

/-- The first two statements of the loop body of `log_delete` keep `count`,
`base` and the callbacks, and record one `raft_pop_log` upcall for the tail
index and no pop call. -/
theorem log_delete_read_spec (env : raft_env σ) (me : log_private_t σ) :
    (log_delete_read env me).count = me.count
      ∧ (log_delete_read env me).base = me.base
      ∧ (log_delete_read env me).cb = me.cb
      ∧ ∃ rd, (log_delete_read env me).calls = me.calls ++ rd
          ∧ pop_rets rd = [] ∧ pop_idxs rd = []
          ∧ raft_pop_log_idxs rd = [(me.base + me.count) % ULONG_MOD] := by
  obtain ⟨f1, f2, f3⟩ := log_get_at_idx_frame me ((me.base + me.count) % ULONG_MOD) raft_entry_zero
  obtain ⟨g, hg, g1, g2, g3⟩ :=
    log_get_at_idx_calls me ((me.base + me.count) % ULONG_MOD) raft_entry_zero
  refine ⟨f1, f2, f3, g ++ [call_t.raft_pop_log
    (log_get_at_idx me ((me.base + me.count) % ULONG_MOD) raft_entry_zero).2.1
    ((me.base + me.count) % ULONG_MOD)], ?_, ?_, ?_, ?_⟩
  · show (log_get_at_idx me ((me.base + me.count) % ULONG_MOD) raft_entry_zero).2.2.calls ++ _ = _
    rw [hg, List.append_assoc]
  · rw [pop_rets_append, g1]; rfl
  · rw [pop_idxs_append, g2]; rfl
  · rw [raft_pop_log_idxs_append, g3]; rfl

theorem pop_hook_congr {a b : log_private_t σ} (h : a.cb = b.cb) :
    pop_hook a = pop_hook b := by
  simp [pop_hook, h]

/-- One iteration of the loop of `log_delete`, in terms of `log_delete_read`. -/
theorem log_delete_loop_succ (env : raft_env σ) (fuel idx : Nat) (me : log_private_t σ) :
    log_delete_loop env (fuel + 1) idx me =
      if idx ≤ (me.base + me.count) % ULONG_MOD ∧ me.count ≠ 0 then
        match pop_hook (log_delete_read env me) with
        | some pop =>
          if (pop (log_delete_read env me).raft ((me.base + me.count) % ULONG_MOD)).1 ≠ 0 then
            ((pop (log_delete_read env me).raft ((me.base + me.count) % ULONG_MOD)).1,
              { log_delete_read env me with
                  raft := (pop (log_delete_read env me).raft
                    ((me.base + me.count) % ULONG_MOD)).2,
                  calls := (log_delete_read env me).calls ++
                    [call_t.log_pop ((me.base + me.count) % ULONG_MOD)
                      (pop (log_delete_read env me).raft
                        ((me.base + me.count) % ULONG_MOD)).1] })
          else
            log_delete_loop env fuel idx
              { log_delete_read env me with
                  count := ulong_sub (log_delete_read env me).count 1,
                  raft := (pop (log_delete_read env me).raft
                    ((me.base + me.count) % ULONG_MOD)).2,
                  calls := (log_delete_read env me).calls ++
                    [call_t.log_pop ((me.base + me.count) % ULONG_MOD)
                      (pop (log_delete_read env me).raft
                        ((me.base + me.count) % ULONG_MOD)).1] }
        | none =>
          log_delete_loop env fuel idx
            { log_delete_read env me with
                count := ulong_sub (log_delete_read env me).count 1 }
      else (0, me) := by
  rfl

theorem tail_idxs_succ (b c n : Nat) :
    tail_idxs b c (n + 1) = (b + c) % ULONG_MOD :: tail_idxs b (c - 1) n := by
  unfold tail_idxs
  rw [List.range_succ_eq_map, List.map_cons, List.map_map]
  congr 1
  apply List.map_congr_left
  intro j _
  simp only [Function.comp, Nat.succ_eq_add_one]
  congr 2
  omega

/-- What a run of the loop of `log_delete` does when it is given at least
`count` iterations: it returns; `base` and the callbacks are unchanged; `count`
does not grow; every entry it removed was at or after `idx`; and either it
returns 0, every pop code was 0 and the loop condition is false on exit, or it
returns the non-zero code of the last pop call, all earlier pop codes being 0.
In both cases the indices announced are the newest ones, in descending
order. -/
theorem log_delete_loop_run (env : raft_env σ) :
    ∀ (fuel idx : Nat) (me : log_private_t σ), me.count ≤ fuel →
      ∀ r, log_delete_loop env fuel idx me = r →
      ∃ evs,
        r.2.calls = me.calls ++ evs
        ∧ r.2.base = me.base
        ∧ r.2.cb = me.cb
        ∧ r.2.count ≤ me.count
        ∧ (∀ k, r.2.count < k → k ≤ me.count → idx ≤ (me.base + k) % ULONG_MOD)
        ∧ ((r.1 = 0
            ∧ (∀ e ∈ pop_rets evs, e = 0)
            ∧ ¬ (idx ≤ (me.base + r.2.count) % ULONG_MOD ∧ r.2.count ≠ 0)
            ∧ raft_pop_log_idxs evs = tail_idxs me.base me.count (me.count - r.2.count)
            ∧ pop_idxs evs =
                (if (pop_hook me).isSome then
                  tail_idxs me.base me.count (me.count - r.2.count) else []))
          ∨ (r.1 ≠ 0
            ∧ (pop_hook me).isSome
            ∧ pop_rets evs = List.replicate (me.count - r.2.count) 0 ++ [r.1]
            ∧ raft_pop_log_idxs evs = tail_idxs me.base me.count (me.count - r.2.count + 1)
            ∧ pop_idxs evs = tail_idxs me.base me.count (me.count - r.2.count + 1)
            ∧ r.2.count ≠ 0)) := by
  intro fuel
  induction fuel with
  | zero =>
    intro idx me hc r hr
    have hc0 : me.count = 0 := by omega
    have hr2 : r = (0, me) := hr.symm
    subst hr2
    refine ⟨[], by simp, rfl, rfl, le_refl _, ?_, Or.inl ⟨rfl, ?_, ?_, ?_, ?_⟩⟩
    · intro k h1 h2
      have h3 : k ≤ me.count := h2
      have h4 : me.count < k := h1
      omega
    · intro e he
      simp [pop_rets] at he
    · simp [hc0]
    · simp [tail_idxs, raft_pop_log_idxs]
    · simp [tail_idxs, pop_idxs]
  | succ fuel ih =>
    intro idx me hc r hr
    rw [log_delete_loop_succ] at hr
    by_cases hcond : idx ≤ (me.base + me.count) % ULONG_MOD ∧ me.count ≠ 0
    · rw [if_pos hcond] at hr
      obtain ⟨rc, rb, rcb, rd, hrd, rd1, rd2, rd3⟩ := log_delete_read_spec env me
      have hph : pop_hook (log_delete_read env me) = pop_hook me := pop_hook_congr rcb
      have hdec : ulong_sub (log_delete_read env me).count 1 = me.count - 1 := by
        rw [rc]
        exact ulong_dec hcond.2
      have hc1 : me.count - 1 ≤ fuel := by omega
      cases hp : pop_hook (log_delete_read env me) with
      | none =>
        rw [hp] at hr
        have hpn : pop_hook me = none := by rw [← hph]; exact hp
        obtain ⟨me2, hme2, m2c, m2b, m2cb, m2calls⟩ : ∃ me2 : log_private_t σ,
            me2 = { log_delete_read env me with
                      count := ulong_sub (log_delete_read env me).count 1 }
              ∧ me2.count = me.count - 1 ∧ me2.base = me.base ∧ me2.cb = me.cb
              ∧ me2.calls = me.calls ++ rd := ⟨_, rfl, hdec, rb, rcb, hrd⟩
        change log_delete_loop env fuel idx
          { log_delete_read env me with
              count := ulong_sub (log_delete_read env me).count 1 } = r at hr
        rw [← hme2] at hr
        obtain ⟨evs2, i1, i2, i3, i4, i5, i6⟩ := ih idx me2 (by rw [m2c]; exact hc1) r hr
        rw [m2c] at i4 i5 i6
        rw [m2b] at i2 i5 i6
        rw [m2cb] at i3
        rw [m2calls] at i1
        rw [pop_hook_congr m2cb, hpn] at i6
        refine ⟨rd ++ evs2, by rw [i1, List.append_assoc], i2, i3, by omega, ?_, ?_⟩
        · intro k h1 h2
          by_cases hk : k = me.count
          · rw [hk]; exact hcond.1
          · exact i5 k h1 (by omega)
        · rcases i6 with ⟨j1, j2, j3, j4, j5⟩ | ⟨j1, j2, _⟩
          · left
            refine ⟨j1, ?_, j3, ?_, ?_⟩
            · intro e he
              rw [pop_rets_append, rd1] at he
              exact j2 e he
            · rw [show me.count - r.2.count = (me.count - 1 - r.2.count) + 1 by omega,
                tail_idxs_succ, raft_pop_log_idxs_append, rd3, j4]
              rfl
            · rw [pop_idxs_append, rd2, j5, hpn]
              rfl
          · exact absurd j2 (by simp)
      | some pop =>
        rw [hp] at hr
        have hps : pop_hook me = some pop := by rw [← hph]; exact hp
        by_cases hr0 : (pop (log_delete_read env me).raft
            ((me.base + me.count) % ULONG_MOD)).1 = 0
        · obtain ⟨me2, hme2, m2c, m2b, m2cb, m2calls⟩ : ∃ me2 : log_private_t σ,
              me2 = { log_delete_read env me with
                  count := ulong_sub (log_delete_read env me).count 1,
                  raft := (pop (log_delete_read env me).raft
                    ((me.base + me.count) % ULONG_MOD)).2,
                  calls := (log_delete_read env me).calls ++
                    [call_t.log_pop ((me.base + me.count) % ULONG_MOD)
                      (pop (log_delete_read env me).raft
                        ((me.base + me.count) % ULONG_MOD)).1] }
                ∧ me2.count = me.count - 1 ∧ me2.base = me.base ∧ me2.cb = me.cb
                ∧ me2.calls = me.calls ++
                    (rd ++ [call_t.log_pop ((me.base + me.count) % ULONG_MOD) 0]) :=
            ⟨_, rfl, hdec, rb, rcb, by
              show (log_delete_read env me).calls ++ _ = _
              rw [hrd, hr0, List.append_assoc]⟩
          have hr2 : log_delete_loop env fuel idx me2 = r := by
            rw [hme2, ← hr]
            simp only [hr0, ne_eq, not_true_eq_false, if_false]
          obtain ⟨evs2, i1, i2, i3, i4, i5, i6⟩ := ih idx me2 (by rw [m2c]; exact hc1) r hr2
          rw [m2c] at i4 i5 i6
          rw [m2b] at i2 i5 i6
          rw [m2cb] at i3
          rw [m2calls] at i1
          rw [pop_hook_congr m2cb, hps] at i6
          have hS : tail_idxs me.base me.count (me.count - r.2.count)
              = (me.base + me.count) % ULONG_MOD
                  :: tail_idxs me.base (me.count - 1) (me.count - 1 - r.2.count) := by
            rw [show me.count - r.2.count = (me.count - 1 - r.2.count) + 1 by omega,
              tail_idxs_succ]
          have hF : tail_idxs me.base me.count (me.count - r.2.count + 1)
              = (me.base + me.count) % ULONG_MOD
                  :: tail_idxs me.base (me.count - 1) (me.count - 1 - r.2.count + 1) := by
            rw [show me.count - r.2.count + 1 = (me.count - 1 - r.2.count + 1) + 1 by omega,
              tail_idxs_succ]
          have hlen : me.count - r.2.count = (me.count - 1 - r.2.count) + 1 := by omega
          refine ⟨rd ++ [call_t.log_pop ((me.base + me.count) % ULONG_MOD) 0] ++ evs2,
            by rw [i1, List.append_assoc], i2, i3, by omega, ?_, ?_⟩
          · intro k h1 h2
            by_cases hk : k = me.count
            · rw [hk]; exact hcond.1
            · exact i5 k h1 (by omega)
          · rcases i6 with ⟨j1, j2, j3, j4, j5⟩ | ⟨j1, _, j3, j4, j5, j6⟩
            · left
              refine ⟨j1, ?_, j3, ?_, ?_⟩
              · intro e he
                rw [pop_rets_append, pop_rets_append, rd1] at he
                simp only [pop_rets, List.nil_append, List.singleton_append,
                  List.mem_cons] at he
                rcases he with he | he
                · exact he
                · exact j2 e he
              · rw [hS, raft_pop_log_idxs_append, raft_pop_log_idxs_append, rd3, j4]
                rfl
              · rw [hps, pop_idxs_append, pop_idxs_append, rd2, j5]
                simp only [Option.isSome_some, if_true]
                rw [hS]
                rfl
            · right
              refine ⟨j1, by rw [hps]; rfl, ?_, ?_, ?_, j6⟩
              · rw [pop_rets_append, pop_rets_append, rd1, j3, hlen, List.replicate_succ]
                rfl
              · rw [hF, raft_pop_log_idxs_append, raft_pop_log_idxs_append, rd3, j4]
                rfl
              · rw [hF, pop_idxs_append, pop_idxs_append, rd2, j5]
                rfl
        · have hr2 : r = ((pop (log_delete_read env me).raft
                ((me.base + me.count) % ULONG_MOD)).1,
              { log_delete_read env me with
                  raft := (pop (log_delete_read env me).raft
                    ((me.base + me.count) % ULONG_MOD)).2,
                  calls := (log_delete_read env me).calls ++
                    [call_t.log_pop ((me.base + me.count) % ULONG_MOD)
                      (pop (log_delete_read env me).raft
                        ((me.base + me.count) % ULONG_MOD)).1] }) := by
            rw [← hr]
            simp only [ne_eq, hr0, not_false_eq_true, if_true]
          subst hr2
          refine ⟨rd ++ [call_t.log_pop ((me.base + me.count) % ULONG_MOD)
              (pop (log_delete_read env me).raft ((me.base + me.count) % ULONG_MOD)).1],
            by simp only [hrd, List.append_assoc], rb, rcb, by simp only [rc]; exact le_refl _,
            ?_, Or.inr ⟨hr0, by rw [hps]; rfl, ?_, ?_, ?_, ?_⟩⟩
          · intro k h1 h2
            simp only [rc] at h1
            omega
          · simp only [rc, Nat.sub_self, List.replicate_zero, List.nil_append]
            rw [pop_rets_append, rd1]
            rfl
          · simp only [rc, Nat.sub_self, Nat.zero_add]
            rw [raft_pop_log_idxs_append, rd3, tail_idxs_succ]
            rfl
          · simp only [rc, Nat.sub_self, Nat.zero_add]
            rw [pop_idxs_append, rd2, tail_idxs_succ]
            rfl
          · simp only [rc]
            exact hcond.2
    · rw [if_neg hcond] at hr
      subst hr
      refine ⟨[], by simp, rfl, rfl, le_refl _, ?_, Or.inl ⟨rfl, ?_, hcond, ?_, ?_⟩⟩
      · intro k h1 h2
        have h3 : me.count < k := h1
        omega
      · intro e he
        simp [pop_rets] at he
      · simp [tail_idxs, raft_pop_log_idxs]
      · simp [tail_idxs, pop_idxs]

/-- Function `log_delete` with a non-zero index runs the loop from the clamped
index with `count` iterations available. -/
theorem log_delete_eq_loop (env : raft_env σ) (me : log_private_t σ) (idx : Nat)
    (h : idx ≠ 0) :
    log_delete env me idx
      = log_delete_loop env me.count (if idx < me.base then me.base else idx) me := by
  simp [log_delete, h]

/-! ## C7 -/

/-- C7 (as amended): for every state with `base + count < 2^64` and every
`idx`, when the pop callback is absent or every code it returns is 0:
`log_delete(0)` returns -1 and invokes nothing (state and history untouched);
otherwise `log_delete` returns 0, leaves `base` unchanged, and leaves `count`
equal to `idx - 1 - base` when `base < idx <= base + count`, to 0 when
`1 <= idx <= base`, and to the old `count` when `idx > base + count`. -/
theorem log_delete_succeeds (env : raft_env σ) (me : log_private_t σ) (idx : Nat)
    (hfit : me.base + me.count < ULONG_MOD)
    (hacc : ∀ e ∈ pop_rets (calls_during me (log_delete env me idx).2), e = 0) :
    (idx = 0 → log_delete env me idx = (-1, me))
      ∧ (idx ≠ 0 →
          (log_delete env me idx).1 = 0
            ∧ (log_delete env me idx).2.base = me.base
            ∧ (me.base < idx → idx ≤ me.base + me.count →
                (log_delete env me idx).2.count = idx - 1 - me.base)
            ∧ (idx ≤ me.base → (log_delete env me idx).2.count = 0)
            ∧ (me.base + me.count < idx → (log_delete env me idx).2.count = me.count)) := by
  constructor
  · intro h
    simp [log_delete, h]
  · intro h
    rw [log_delete_eq_loop env me idx h] at hacc ⊢
    generalize hI : (if idx < me.base then me.base else idx) = idx2 at hacc ⊢
    obtain ⟨evs, i1, i2, _, i4, i5, i6⟩ :=
      log_delete_loop_run env me.count idx2 me (le_refl _) _ rfl
    rw [calls_during_append i1] at hacc
    rcases i6 with ⟨j1, _, j3, _, _⟩ | ⟨j1, _, j3, _, _, _⟩
    · have hmod : ∀ k, k ≤ me.count → (me.base + k) % ULONG_MOD = me.base + k :=
        fun k hk => Nat.mod_eq_of_lt (by omega)
      rw [hmod _ i4] at j3
      refine ⟨j1, i2, ?_, ?_, ?_⟩
      · intro h1 h2
        have hi : idx2 = idx := by rw [← hI]; exact if_neg (by omega)
        by_contra hne
        by_cases hlt : (log_delete_loop env me.count idx2 me).2.count < idx - 1 - me.base
        · have := i5 ((log_delete_loop env me.count idx2 me).2.count + 1) (by omega) (by omega)
          rw [hmod _ (by omega)] at this
          omega
        · exact j3 ⟨by omega, by omega⟩
      · intro h1
        have hi : idx2 = me.base := by
          rw [← hI]
          split_ifs <;> omega
        by_contra hne
        exact j3 ⟨by omega, hne⟩
      · intro h1
        have hi : idx2 = idx := by rw [← hI]; exact if_neg (by omega)
        by_contra hne
        have := i5 me.count (by omega) (le_refl _)
        rw [hmod _ (le_refl _)] at this
        omega
    · exfalso
      exact j1 (hacc _ (by rw [j3]; simp))

/-- Witness for C7: five entries appended to an empty log with base 0, then
`log_delete(3)`: `base + count` ends at 2. -/
theorem log_delete_succeeds_witness :
    (log_delete ex_env
        (log_append_entries ex_env (ex_log 0 0)
          [ex_ety 1, ex_ety 2, ex_ety 3, ex_ety 4, ex_ety 5]).2 3).1 = 0
      ∧ (log_delete ex_env
          (log_append_entries ex_env (ex_log 0 0)
            [ex_ety 1, ex_ety 2, ex_ety 3, ex_ety 4, ex_ety 5]).2 3).2.base = 0
      ∧ (log_delete ex_env
          (log_append_entries ex_env (ex_log 0 0)
            [ex_ety 1, ex_ety 2, ex_ety 3, ex_ety 4, ex_ety 5]).2 3).2.count = 2 :=
  have h := (log_delete_succeeds ex_env
    (log_append_entries ex_env (ex_log 0 0)
      [ex_ety 1, ex_ety 2, ex_ety 3, ex_ety 4, ex_ety 5]).2 3 (by decide) (by decide)).2
    (by decide)
  ⟨h.1, h.2.1, h.2.2.1 (by decide) (by decide)⟩

/-- C7 (counterexample to the claim as stated): in the state reached by
`log_load_from_snapshot(2^64 - 1, term)` and one append (`base = 2^64 - 2`,
`count = 2`, so `base + count` wraps to 0), `log_delete(1)` has
`1 <= idx <= base`, returns 0 without calling the pop callback, and leaves
`count = 2`, not 0. -/
theorem log_delete_wrapped_window :
    1 ≤ (ex_log 18446744073709551614 2).base
      ∧ (log_delete ex_env (ex_log 18446744073709551614 2) 1).1 = 0
      ∧ (log_delete ex_env (ex_log 18446744073709551614 2) 1).2.count = 2
      ∧ (log_delete ex_env (ex_log 18446744073709551614 2) 1).2.count ≠ 0
      ∧ pop_rets (log_delete ex_env (ex_log 18446744073709551614 2) 1).2.calls = [] := by
  decide

/-! ## C8 -/

/-- A list of zeros followed by a non-zero code determines where its first
non-zero element is: if it also reads as `j` zeros, then a non-zero `e`, then
`rest`, the two prefixes have the same length, the codes agree and `rest` is
empty. -/
theorem replicate_zero_append_unique (a e : Int) (ha : a ≠ 0) (he : e ≠ 0) :
    ∀ (n j : Nat) (rest : List Int),
      List.replicate n (0 : Int) ++ [a] = List.replicate j 0 ++ e :: rest →
      n = j ∧ a = e ∧ rest = [] := by
  intro n
  induction n with
  | zero =>
    intro j rest h
    cases j with
    | zero =>
      simp only [List.replicate_zero, List.nil_append, List.cons.injEq] at h
      exact ⟨rfl, h.1, h.2.symm⟩
    | succ j =>
      simp only [List.replicate_zero, List.nil_append, List.replicate_succ, List.cons_append,
        List.cons.injEq] at h
      exact absurd h.1 ha
  | succ n ih =>
    intro j rest h
    cases j with
    | zero =>
      simp only [List.replicate_succ, List.cons_append, List.replicate_zero, List.nil_append,
        List.cons.injEq] at h
      exact absurd h.1.symm he
    | succ j =>
      simp only [List.replicate_succ, List.cons_append, List.cons.injEq, true_and] at h
      obtain ⟨h1, h2, h3⟩ := ih j rest h
      exact ⟨by rw [h1], h2, h3⟩

/-- C8: for every state and every `idx >= 1`, if during `log_delete` the pop
callback returns 0 on its first `j` calls and a non-zero code `e` on call
`j + 1` (`rest` being the codes of whatever pop calls come after that one),
then `log_delete` stops immediately: there is no later pop call (`rest` is
empty), exactly `j + 1` iterations were started and `j + 1` pop calls made; it
returns exactly `e`, leaves `base` unchanged and leaves `count` reduced by
exactly `j` (unchanged when `j = 0`). -/
theorem log_delete_pop_fails (env : raft_env σ) (me : log_private_t σ) (idx j : Nat)
    (e : Int) (rest : List Int) (hidx : 1 ≤ idx) (he : e ≠ 0)
    (hrets : pop_rets (calls_during me (log_delete env me idx).2)
      = List.replicate j 0 ++ e :: rest) :
    rest = []
      ∧ (log_delete env me idx).1 = e
      ∧ (log_delete env me idx).2.base = me.base
      ∧ (log_delete env me idx).2.count + j = me.count
      ∧ (pop_idxs (calls_during me (log_delete env me idx).2)).length = j + 1
      ∧ (raft_pop_log_idxs (calls_during me (log_delete env me idx).2)).length = j + 1 := by
  have h : idx ≠ 0 := by omega
  rw [log_delete_eq_loop env me idx h] at hrets ⊢
  generalize (if idx < me.base then me.base else idx) = idx2 at hrets ⊢
  obtain ⟨evs, i1, i2, _, i4, _, i6⟩ :=
    log_delete_loop_run env me.count idx2 me (le_refl _) _ rfl
  rw [calls_during_append i1] at hrets ⊢
  rcases i6 with ⟨_, j2, _, _, _⟩ | ⟨j1, _, j3, j4, j5, _⟩
  · exfalso
    exact he (j2 e (by rw [hrets]; simp))
  · rw [j3] at hrets
    obtain ⟨hn, hcode, hrest⟩ :=
      replicate_zero_append_unique _ e j1 he _ j rest hrets
    refine ⟨hrest, hcode, i2, by omega, ?_, ?_⟩
    · rw [j5, hn]
      simp [tail_idxs]
    · rw [j4, hn]
      simp [tail_idxs]

/-- Witness for C8: five live entries, the pop callback accepts twice, fails
with code 5 on its third call and would accept any later call:
`log_delete(1)` returns 5 after exactly three pop calls and leaves three
entries. -/
theorem log_delete_pop_fails_witness :
    pop_rets (calls_during (ex_log_pop_fail 0 5)
        (log_delete ex_env (ex_log_pop_fail 0 5) 1).2) = [0, 0, 5]
      ∧ (log_delete ex_env (ex_log_pop_fail 0 5) 1).1 = 5
      ∧ (log_delete ex_env (ex_log_pop_fail 0 5) 1).2.base = 0
      ∧ (log_delete ex_env (ex_log_pop_fail 0 5) 1).2.count + 2 = 5
      ∧ (pop_idxs (calls_during (ex_log_pop_fail 0 5)
          (log_delete ex_env (ex_log_pop_fail 0 5) 1).2)).length = 3 :=
  have h := log_delete_pop_fails ex_env (ex_log_pop_fail 0 5) 1 2 5 []
    (by decide) (by decide) (by decide)
  ⟨by decide, h.2.1, h.2.2.1, h.2.2.2.1, h.2.2.2.2.1⟩

/-! ## C9 -/

theorem one_mod_ulong : 1 % ULONG_MOD = 1 := by
  decide

/-- Function `log_append_entry` on a cleared log: the index offered is 1. -/
theorem log_append_entry_cleared (env : raft_env σ) (me : log_private_t σ)
    (ety : raft_entry_t) :
    log_append_entry env (log_clear me) ety =
      match offer_hook me with
      | some offer =>
        if (offer me.raft ety 1).1 ≠ 0 then
          ((offer me.raft ety 1).1,
            { log_clear me with
                raft := (offer me.raft ety 1).2.2,
                calls := me.calls ++ [call_t.log_offer ety 1 (offer me.raft ety 1).1] })
        else
          (0, { log_clear me with
                  count := 1,
                  raft := env.raft_offer_log (offer me.raft ety 1).2.2 (offer me.raft ety 1).2.1 1,
                  calls := me.calls ++
                    [call_t.log_offer ety 1 (offer me.raft ety 1).1,
                     call_t.raft_offer_log (offer me.raft ety 1).2.1 1] })
      | none => (0, { log_clear me with count := 1 }) := by
  have hh : offer_hook (log_clear me) = offer_hook me := offer_hook_congr rfl
  have h1 : ((log_clear me).base + (log_clear me).count + 1) % ULONG_MOD = 1 := one_mod_ulong
  have h2 : ((log_clear me).count + 1) % ULONG_MOD = 1 := one_mod_ulong
  unfold log_append_entry
  simp only [hh, h1, h2]
  rfl

/-- C9: for every prior state, every `idx >= 1` and every term, when the offer
callback is absent or accepts the snapshot entry, `log_load_from_snapshot`
returns 0 and leaves `base == idx - 1` and `count == 1`; the state is the one
produced by clearing the log and appending exactly one entry, and that entry
has id 1, the given term, type `RAFT_LOGTYPE_SNAPSHOT` and data length 0 (it
is the entry handed to the offer callback, at index 1, when one is bound). -/
theorem log_load_from_snapshot_succeeds (env : raft_env σ) (me : log_private_t σ)
    (idx term : Nat) (ety0 : raft_entry_t) (hidx : 1 ≤ idx)
    (hacc : ∀ offer, offer_hook me = some offer →
      (offer me.raft (snapshot_ety env term ety0) 1).1 = 0) :
    ∃ me2, log_load_from_snapshot env me idx term ety0 = some (0, me2)
      ∧ me2.base = idx - 1
      ∧ me2.count = 1
      ∧ me2 = { (log_append_entry env (log_clear me) (snapshot_ety env term ety0)).2 with
                  base := idx - 1 }
      ∧ (snapshot_ety env term ety0).id = 1
      ∧ (snapshot_ety env term ety0).term = term
      ∧ (snapshot_ety env term ety0).type = env.RAFT_LOGTYPE_SNAPSHOT
      ∧ (snapshot_ety env term ety0).data.len = 0
      ∧ offer_etys (calls_during me me2) =
          (if (offer_hook me).isSome then [snapshot_ety env term ety0] else [])
      ∧ offer_idxs (calls_during me me2) = (if (offer_hook me).isSome then [1] else []) := by
  have hdec : ulong_sub idx 1 = idx - 1 := ulong_dec (by omega)
  have hret : (log_append_entry env (log_clear me) (snapshot_ety env term ety0)).1 = 0 := by
    rw [log_append_entry_cleared]
    cases h : offer_hook me with
    | none => rfl
    | some offer => simp [hacc offer h]
  refine ⟨{ (log_append_entry env (log_clear me) (snapshot_ety env term ety0)).2 with
              base := idx - 1 }, ?_, rfl, ?_, rfl, rfl, rfl, rfl, rfl, ?_, ?_⟩
  · simp [log_load_from_snapshot, hret, hdec]
  · rw [log_append_entry_cleared]
    cases h : offer_hook me with
    | none => rfl
    | some offer => simp [hacc offer h]
  · have hc : ({ (log_append_entry env (log_clear me) (snapshot_ety env term ety0)).2 with
              base := idx - 1 } : log_private_t σ).calls
        = me.calls ++ (match offer_hook me with
            | some offer =>
              [call_t.log_offer (snapshot_ety env term ety0) 1 0,
               call_t.raft_offer_log
                (offer me.raft (snapshot_ety env term ety0) 1).2.1 1]
            | none => []) := by
      rw [log_append_entry_cleared]
      cases h : offer_hook me with
      | none => simp [log_clear]
      | some offer => simp [hacc offer h, log_clear]
    rw [calls_during_append hc]
    cases h : offer_hook me <;> simp [offer_etys]
  · have hc : ({ (log_append_entry env (log_clear me) (snapshot_ety env term ety0)).2 with
              base := idx - 1 } : log_private_t σ).calls
        = me.calls ++ (match offer_hook me with
            | some offer =>
              [call_t.log_offer (snapshot_ety env term ety0) 1 0,
               call_t.raft_offer_log
                (offer me.raft (snapshot_ety env term ety0) 1).2.1 1]
            | none => []) := by
      rw [log_append_entry_cleared]
      cases h : offer_hook me with
      | none => simp [log_clear]
      | some offer => simp [hacc offer h, log_clear]
    rw [calls_during_append hc]
    cases h : offer_hook me <;> simp [offer_idxs]

/-- Witness for C9: `log_load_from_snapshot(10, 3)` on a log with base 3 and
count 4 gives `base == 9` and `count == 1`. -/
theorem log_load_from_snapshot_succeeds_witness :
    ∃ me2, log_load_from_snapshot ex_env (ex_log 3 4) 10 3 raft_entry_zero = some (0, me2)
      ∧ me2.base = 9 ∧ me2.count = 1 :=
  match log_load_from_snapshot_succeeds ex_env (ex_log 3 4) 10 3 raft_entry_zero
    (by decide) (by intro offer hb; cases (Option.some.inj hb); rfl) with
  | ⟨me2, h1, h2, h3, _⟩ => ⟨me2, h1, h2, h3⟩

/-! ## C10 -/

/-- C11 (as amended).  Write `S` for `(base + count) mod 2^64`.  For every
state and every non-zero `idx` outside `[base, base + count]`,
`log_get_from_idx` stores length 0, returns no array and invokes nothing (the
state, history included, is untouched).  With `idx == 0` the call does not
return the empty result: `assert(0 != idx)` aborts it.  In a build with
`NDEBUG`, `idx == 0` gives that same empty result when `0 < base`, and also
when `base == 0` and `S + 1 == 2^64` (the length wraps to 0); when `base == 0`
and `S + 1 < 2^64` it reports the non-zero length `S + 1` instead. -/
theorem log_get_from_idx_out_of_range (env : raft_env σ) (calloc_ok : Bool)
    (me : log_private_t σ) (idx : Nat) :
    (idx ≠ 0 → (idx < me.base ∨ me.base + me.count < idx) →
        log_get_from_idx env calloc_ok me idx = some (none, 0, me))
      ∧ (idx = 0 → env.NDEBUG = false → log_get_from_idx env calloc_ok me idx = none)
      ∧ (idx = 0 → env.NDEBUG = true → 0 < me.base →
          log_get_from_idx env calloc_ok me idx = some (none, 0, me))
      ∧ (idx = 0 → env.NDEBUG = true → me.base = 0 →
          (me.base + me.count) % ULONG_MOD + 1 = ULONG_MOD →
          log_get_from_idx env calloc_ok me idx = some (none, 0, me))
      ∧ (idx = 0 → env.NDEBUG = true → me.base = 0 →
          (me.base + me.count) % ULONG_MOD + 1 < ULONG_MOD →
          ∃ arr me2, log_get_from_idx env calloc_ok me idx
            = some (arr, (me.base + me.count) % ULONG_MOD + 1, me2)) := by
  have hsub0 : ulong_sub ((me.base + me.count) % ULONG_MOD) 0
      = (me.base + me.count) % ULONG_MOD := by
    unfold ulong_sub
    rw [if_pos (Nat.zero_le _), Nat.sub_zero]
  refine ⟨?_, ?_, ?_, ?_, ?_⟩
  · intro h0 h
    have hout : (me.base + me.count) % ULONG_MOD < idx ∨ idx < me.base := by
      rcases h with h | h
      · exact Or.inr h
      · exact Or.inl (lt_of_le_of_lt (Nat.mod_le _ _) h)
    unfold log_get_from_idx
    rw [if_neg (by simp [h0]), if_pos hout]
  · intro h0 hn
    unfold log_get_from_idx
    rw [if_pos ⟨h0, hn⟩]
  · intro h0 hn hb
    unfold log_get_from_idx
    rw [if_neg (by simp [hn]), if_pos (Or.inr (by omega))]
  · intro h0 hn hb hS
    have htot : (ulong_sub ((me.base + me.count) % ULONG_MOD) idx + 1) % ULONG_MOD = 0 := by
      rw [h0, hsub0, hS, Nat.mod_self]
    unfold log_get_from_idx
    rw [if_neg (by simp [hn]), if_neg (by omega)]
    simp only [htot]
    rfl
  · intro h0 hn hb hS
    have htot : (ulong_sub ((me.base + me.count) % ULONG_MOD) idx + 1) % ULONG_MOD
        = (me.base + me.count) % ULONG_MOD + 1 := by
      rw [h0, hsub0, Nat.mod_eq_of_lt hS]
    unfold log_get_from_idx
    rw [if_neg (by simp [hn]), if_neg (by omega)]
    simp only [htot]
    rw [if_neg (by omega)]
    cases calloc_ok
    · exact ⟨_, _, rfl⟩
    · exact ⟨_, _, rfl⟩

/-- Witness for C11: base 4, count 2: index 3 is below the window, index 7 is
past it, and index 0 aborts; in a build with `NDEBUG`, index 0 gives the empty
result on base 4 and on base 0 with count `2^64 - 1`, and length 3 on base 0
with count 2. -/
theorem log_get_from_idx_out_of_range_witness :
    ((log_get_from_idx ex_env true (ex_log 4 2) 3).map fun r => (r.1, r.2.1)) = some (none, 0)
      ∧ ((log_get_from_idx ex_env true (ex_log 4 2) 7).map fun r => (r.1, r.2.1))
          = some (none, 0)
      ∧ ((log_get_from_idx ex_env true (ex_log 4 2) 0).map fun r => (r.1, r.2.1)) = none
      ∧ log_get_from_idx ex_env_ndebug true (ex_log 4 2) 0 = some (none, 0, ex_log 4 2)
      ∧ log_get_from_idx ex_env_ndebug true (ex_log 0 18446744073709551615) 0
          = some (none, 0, ex_log 0 18446744073709551615)
      ∧ ∃ arr me2, log_get_from_idx ex_env_ndebug true (ex_log 0 2) 0 = some (arr, 3, me2) :=
  ⟨by rw [(log_get_from_idx_out_of_range ex_env true (ex_log 4 2) 3).1 (by decide)
        (Or.inl (by decide))]; rfl,
   by rw [(log_get_from_idx_out_of_range ex_env true (ex_log 4 2) 7).1 (by decide)
        (Or.inr (by decide))]; rfl,
   by rw [(log_get_from_idx_out_of_range ex_env true (ex_log 4 2) 0).2.1 rfl rfl]; rfl,
   (log_get_from_idx_out_of_range ex_env_ndebug true (ex_log 4 2) 0).2.2.1 rfl rfl (by decide),
   (log_get_from_idx_out_of_range ex_env_ndebug true (ex_log 0 18446744073709551615) 0).2.2.2.1
     rfl rfl rfl (by decide),
   (log_get_from_idx_out_of_range ex_env_ndebug true (ex_log 0 2) 0).2.2.2.2
     rfl rfl rfl (by decide)⟩

/-- C11 (counterexample to the claim as stated): with base 0 and two live
entries, `log_get_from_idx(0)` does not yield the empty result: the assertion
aborts the call, and in a build with `NDEBUG` it reports length 3, returns an
array and calls the get callback for indices 1 and 2. -/
theorem log_get_from_idx_zero_index :
    (log_get_from_idx ex_env true (ex_log 0 2) 0).isNone = true
      ∧ ((log_get_from_idx ex_env_ndebug true (ex_log 0 2) 0).map
          fun r => (r.1, r.2.1, get_idxs r.2.2.calls))
        = some (some [raft_entry_zero,
                      { raft_entry_zero with id := 1, term := 7 },
                      { raft_entry_zero with id := 2, term := 7 }], 3, [1, 2]) := by
  decide

/-! ## C12 -/

/-- Function `log_delete` never changes `base`, never increases `count`, and
keeps the callbacks. -/
theorem log_delete_frame (env : raft_env σ) (me : log_private_t σ) (idx : Nat) :
    (log_delete env me idx).2.base = me.base
      ∧ (log_delete env me idx).2.count ≤ me.count
      ∧ (log_delete env me idx).2.cb = me.cb := by
  by_cases h : idx = 0
  · simp [log_delete, h]
  · rw [log_delete_eq_loop env me idx h]
    obtain ⟨_, _, i2, i3, i4, _, _⟩ :=
      log_delete_loop_run env me.count (if idx < me.base then me.base else idx) me
        (le_refl _) _ rfl
    exact ⟨i2, i4, i3⟩

/-- Function `log_poll` leaves `base` alone when it fails and adds one to it
(in `unsigned long` arithmetic) when it succeeds. -/
theorem log_poll_base (me : log_private_t σ) :
    ((log_poll me).1 ≠ 0 ∧ (log_poll me).2.base = me.base)
      ∨ ((log_poll me).1 = 0 ∧ (log_poll me).2.base = (me.base + 1) % ULONG_MOD) := by
  unfold log_poll
  by_cases hc : me.count = 0
  · left
    simp [hc]
  · cases h : poll_hook me with
    | none =>
      right
      simp [hc]
    | some poll =>
      by_cases hr : (poll me.raft ((me.base + 1) % ULONG_MOD)).1 = 0
      · right
        simp [hc, hr]
      · left
        simp [hc, hr]

/-- One step of `log_op` changes `base` by at most one, upwards, as long as
`base + 1` does not wrap. -/
theorem log_step_base (env : raft_env σ) (me : log_private_t σ) (op : log_op)
    (hfit : me.base + 1 < ULONG_MOD) :
    me.base ≤ (log_step env me op).base ∧ (log_step env me op).base ≤ me.base + 1 := by
  cases op with
  | append ety =>
    show me.base ≤ (log_append_entry env me ety).2.base
      ∧ (log_append_entry env me ety).2.base ≤ me.base + 1
    rw [(log_append_entry_frame env me ety).1]
    omega
  | delete idx =>
    show me.base ≤ (log_delete env me idx).2.base
      ∧ (log_delete env me idx).2.base ≤ me.base + 1
    rw [(log_delete_frame env me idx).1]
    omega
  | poll =>
    show me.base ≤ (log_poll me).2.base ∧ (log_poll me).2.base ≤ me.base + 1
    rcases log_poll_base me with ⟨_, h⟩ | ⟨_, h⟩
    · rw [h]
      omega
    · rw [h, Nat.mod_eq_of_lt hfit]
      omega
  | empty =>
    show me.base ≤ (log_empty me).base ∧ (log_empty me).base ≤ me.base + 1
    simp [log_empty]

/-- Along a sequence of `log_op` steps `base` never decreases, as long as it
cannot wrap. -/
theorem log_steps_base (env : raft_env σ) :
    ∀ (ops : List log_op) (me : log_private_t σ), me.base + ops.length < ULONG_MOD →
      me.base ≤ (log_steps env me ops).base := by
  intro ops
  induction ops with
  | nil => intro me _; exact le_refl _
  | cons op ops ih =>
    intro me hfit
    simp only [List.length_cons] at hfit
    obtain ⟨h1, h2⟩ := log_step_base env me op (by omega)
    exact le_trans h1 (ih (log_step env me op) (by omega))

/-- C12 (as amended): `log_append_entry`, `log_delete` and `log_empty` never
change `base`, whatever the arguments and the callbacks; `log_poll` leaves
`base` unchanged when it returns a non-zero code and sets it to
`(base + 1) mod 2^64` when it returns 0, so it does not lower `base` when
`base + 1 < 2^64`; along any sequence of `n` of these four operations with
`base + n < 2^64`, `base` never decreases.  `log_clear` resets `base` to 0, and
a `log_load_from_snapshot(idx, term)` that returns 0 sets `base` to `idx - 1`
in `unsigned long` arithmetic, whatever it was before. -/
theorem base_changes (env : raft_env σ) (me : log_private_t σ) :
    (∀ ety, (log_append_entry env me ety).2.base = me.base)
      ∧ (∀ idx, (log_delete env me idx).2.base = me.base)
      ∧ (log_empty me).base = me.base
      ∧ ((log_poll me).1 ≠ 0 → (log_poll me).2.base = me.base)
      ∧ ((log_poll me).1 = 0 → (log_poll me).2.base = (me.base + 1) % ULONG_MOD)
      ∧ (me.base + 1 < ULONG_MOD → me.base ≤ (log_poll me).2.base)
      ∧ (∀ ops : List log_op, me.base + ops.length < ULONG_MOD →
          me.base ≤ (log_steps env me ops).base)
      ∧ (log_clear me).base = 0
      ∧ (∀ idx term ety0 r, log_load_from_snapshot env me idx term ety0 = some r →
          r.1 = 0 → r.2.base = ulong_sub idx 1) := by
  refine ⟨fun ety => (log_append_entry_frame env me ety).1,
    fun idx => (log_delete_frame env me idx).1, rfl, ?_, ?_, ?_,
    fun ops h => log_steps_base env ops me h, rfl, ?_⟩
  · intro hne
    rcases log_poll_base me with ⟨_, h⟩ | ⟨h0, _⟩
    · exact h
    · exact absurd h0 hne
  · intro hz
    rcases log_poll_base me with ⟨hne, _⟩ | ⟨_, h⟩
    · exact absurd hz hne
    · exact h
  · intro hfit
    exact (log_step_base env me log_op.poll hfit).1
  · intro idx term ety0 r hr h0
    unfold log_load_from_snapshot at hr
    by_cases ha : (log_append_entry env (log_clear me) (snapshot_ety env term ety0)).1 = 0
    · simp only [ha, ne_eq, not_true_eq_false, if_false, Option.some.injEq] at hr
      rw [← hr]
    · simp only [ha, ne_eq, not_false_eq_true, if_true] at hr
      cases hn : env.NDEBUG with
      | false => simp [hn] at hr
      | true =>
        simp only [hn, if_true, Option.some.injEq] at hr
        rw [← hr] at h0
        exact absurd h0 ha

/-- Witness for C12: a successful poll on a log with base 4 and count 2, a
failing poll on a log with base 1 and count 1, a sequence of operations, and a
snapshot load. -/
theorem base_changes_witness :
    (log_poll (ex_log 4 2)).2.base = 5
      ∧ (log_poll (ex_log_reject 1 1)).2.base = 1
      ∧ 4 ≤ (log_poll (ex_log 4 2)).2.base
      ∧ 4 ≤ (log_steps ex_env (ex_log 4 2)
          [log_op.poll, log_op.append (ex_ety 1), log_op.delete 6, log_op.empty]).base
      ∧ ∀ r, log_load_from_snapshot ex_env (ex_log 4 2) 10 3 raft_entry_zero = some r →
          r.1 = 0 → r.2.base = 9 :=
  ⟨(base_changes ex_env (ex_log 4 2)).2.2.2.2.1 (by decide),
   (base_changes ex_env (ex_log_reject 1 1)).2.2.2.1 (by decide),
   (base_changes ex_env (ex_log 4 2)).2.2.2.2.2.1 (by decide),
   (base_changes ex_env (ex_log 4 2)).2.2.2.2.2.2.1 _ (by decide),
   (base_changes ex_env (ex_log 4 2)).2.2.2.2.2.2.2.2 10 3 raft_entry_zero⟩

/-- C12 (counterexample to the claim as stated): `log_clear` lowers `base` from
5 to 0, and `log_load_from_snapshot(3, 0)` lowers it from 9 to 2. -/
theorem base_can_decrease :
    (log_clear (ex_log 5 0)).base = 0
      ∧ (log_clear (ex_log 5 0)).base < (ex_log 5 0).base
      ∧ ((log_load_from_snapshot ex_env (ex_log 9 1) 3 0 raft_entry_zero).map
          fun r => (r.1, r.2.base)) = some (0, 2)
      ∧ 2 < (ex_log 9 1).base := by
  decide

/-! ## C13 -/

/-- C13 (the code diverges): inside the live window, with a get callback bound
that returns the failure code -1, `log_get_at_idx` still returns 0: the code of
the callback is recorded in the history and ignored. -/
theorem log_get_at_idx_ignores_get_code :
    (log_get_at_idx (ex_log_get_fail 4 2) 5 raft_entry_zero).1 = 0
      ∧ (log_get_at_idx (ex_log_get_fail 4 2) 5 raft_entry_zero).2.2.calls
          = [call_t.log_get 5 (-1)] := by
  decide

/-! ## C14 -/

/-- C14 (the code diverges): `log_count` returns `count + base`, not the number
of live entries: after `log_load_from_snapshot(10, 3)` on a fresh log one entry
is live and `log_count` returns 10; after one append and one poll no entry is
live and `log_count` returns 1. -/
theorem log_count_includes_base :
    ((log_new true (0 : Nat)).bind fun me =>
        (log_load_from_snapshot ex_env me 10 3 raft_entry_zero).map fun r =>
          (r.2.count, log_count r.2)) = some (1, 10)
    ∧ ((log_new true (0 : Nat)).map fun me =>
        let p := (log_poll (log_append_entry ex_env me (ex_ety 1)).2).2
        (p.count, log_count p)) = some (0, 1) := by
  decide

/-! ## C15 -/

/-- C15 (the code diverges from its header): on a fresh log an append that adds
the entry (`count` goes from 0 to 1) returns 0, not 1; and an append that the
offer callback rejects (`count` unchanged) returns the callback's code 3, not
0. -/
theorem log_append_entry_returns_zero_on_success :
    ((log_new true (0 : Nat)).map fun me =>
        ((log_append_entry ex_env me (ex_ety 1)).1,
         me.count, (log_append_entry ex_env me (ex_ety 1)).2.count)) = some (0, 0, 1)
    ∧ (log_append_entry ex_env (ex_log_reject 0 0) (ex_ety 1)).1 = 3
    ∧ (log_append_entry ex_env (ex_log_reject 0 0) (ex_ety 1)).2.count = 0 := by
  decide

/-! ## C16 -/

/-- C16 (the code diverges from its header): with no callbacks bound an entry
with ID 0 is added (`count` goes from 0 to 1, code 0), and the same entry
appended twice is added twice (`count` ends at 2). -/
theorem log_append_entry_adds_any_id :
    (ex_ety 0).id = 0
      ∧ (log_append_entry ex_env (ex_log_unbound 0 0) (ex_ety 0)).1 = 0
      ∧ (log_append_entry ex_env (ex_log_unbound 0 0) (ex_ety 0)).2.count = 1
      ∧ (log_append_entries ex_env (ex_log_unbound 0 0) [ex_ety 7, ex_ety 7]).1 = [0, 0]
      ∧ (log_append_entries ex_env (ex_log_unbound 0 0) [ex_ety 7, ex_ety 7]).2.count = 2 := by
  decide

/-! ## C17 -/

/-- A run of `log_delete` in which every pop code is 0, without wrap-around:
the code, the final `count`, and the indices announced. -/
theorem log_delete_accepted (env : raft_env σ) (me : log_private_t σ) (idx : Nat)
    (h0 : idx ≠ 0) (hfit : me.base + me.count < ULONG_MOD)
    (hacc : ∀ e ∈ pop_rets (calls_during me (log_delete env me idx).2), e = 0) :
    (log_delete env me idx).1 = 0
      ∧ (log_delete env me idx).2.count =
          (if idx ≤ me.base then 0
           else if idx ≤ me.base + me.count then idx - 1 - me.base else me.count)
      ∧ pop_idxs (calls_during me (log_delete env me idx).2) =
          (if (pop_hook me).isSome then
            tail_idxs me.base me.count (me.count - (log_delete env me idx).2.count)
           else [])
      ∧ raft_pop_log_idxs (calls_during me (log_delete env me idx).2) =
          tail_idxs me.base me.count (me.count - (log_delete env me idx).2.count) := by
  rw [log_delete_eq_loop env me idx h0] at hacc ⊢
  generalize hI : (if idx < me.base then me.base else idx) = idx2 at hacc ⊢
  obtain ⟨evs, i1, _, _, i4, i5, i6⟩ :=
    log_delete_loop_run env me.count idx2 me (le_refl _) _ rfl
  rw [calls_during_append i1] at hacc ⊢
  rcases i6 with ⟨j1, _, j3, j4, j5⟩ | ⟨j1, _, j3, _, _, _⟩
  · have hmod : ∀ k, k ≤ me.count → (me.base + k) % ULONG_MOD = me.base + k :=
      fun k hk => Nat.mod_eq_of_lt (by omega)
    rw [hmod _ i4] at j3
    refine ⟨j1, ?_, j5, j4⟩
    by_cases h1 : idx ≤ me.base
    · rw [if_pos h1]
      have hi : idx2 = me.base := by
        rw [← hI]
        split_ifs <;> omega
      by_contra hne
      exact j3 ⟨by omega, hne⟩
    · rw [if_neg h1]
      have hi : idx2 = idx := by rw [← hI]; exact if_neg (by omega)
      by_cases h2 : idx ≤ me.base + me.count
      · rw [if_pos h2]
        by_contra hne
        by_cases hlt : (log_delete_loop env me.count idx2 me).2.count < idx - 1 - me.base
        · have := i5 ((log_delete_loop env me.count idx2 me).2.count + 1) (by omega) (by omega)
          rw [hmod _ (by omega)] at this
          omega
        · exact j3 ⟨by omega, by omega⟩
      · rw [if_neg h2]
        by_contra hne
        have := i5 me.count (by omega) (le_refl _)
        rw [hmod _ (le_refl _)] at this
        omega
  · exfalso
    exact j1 (hacc _ (by rw [j3]; simp))

/-- C17 (as amended): for every state with `count > 0` and
`base + count < 2^64` and every `idx` with `1 <= idx <= base + count`, when a
pop callback is bound and every code it returns is 0, the indices it is called
with are exactly `base + count`, `base + count - 1`, ...,
`max(idx, base + 1)`, in this strictly descending order, each once. -/
theorem log_delete_pop_order (env : raft_env σ) (me : log_private_t σ) (idx : Nat)
    (hfit : me.base + me.count < ULONG_MOD) (hc : 0 < me.count)
    (h1 : 1 ≤ idx) (h2 : idx ≤ me.base + me.count)
    (hb : (pop_hook me).isSome)
    (hacc : ∀ e ∈ pop_rets (calls_during me (log_delete env me idx).2), e = 0) :
    pop_idxs (calls_during me (log_delete env me idx).2) =
        (List.range (me.base + me.count + 1 - max idx (me.base + 1))).map
          (fun j => me.base + me.count - j)
      ∧ List.Pairwise (fun a b => b < a) (pop_idxs (calls_during me (log_delete env me idx).2))
      ∧ (pop_idxs (calls_during me (log_delete env me idx).2)).Nodup
      ∧ ∀ i, i ∈ pop_idxs (calls_during me (log_delete env me idx).2)
          ↔ (max idx (me.base + 1) ≤ i ∧ i ≤ me.base + me.count) := by
  obtain ⟨_, k2, k3, _⟩ := log_delete_accepted env me idx (by omega) hfit hacc
  have hn : me.count - (log_delete env me idx).2.count
      = me.base + me.count + 1 - max idx (me.base + 1) := by
    rw [k2]
    split_ifs <;> omega
  have hlist : pop_idxs (calls_during me (log_delete env me idx).2) =
      (List.range (me.base + me.count + 1 - max idx (me.base + 1))).map
        (fun j => me.base + me.count - j) := by
    rw [k3, if_pos hb, hn]
    unfold tail_idxs
    apply List.map_congr_left
    intro j hj
    have hj2 := List.mem_range.mp hj
    rw [Nat.mod_eq_of_lt (by omega)]
    omega
  have hpw : List.Pairwise (fun a b => b < a)
      ((List.range (me.base + me.count + 1 - max idx (me.base + 1))).map
        (fun j => me.base + me.count - j)) := by
    rw [List.pairwise_map]
    refine List.Pairwise.imp_of_mem ?_ (List.pairwise_lt_range _)
    intro a b ha hb2 hab
    have ha2 := List.mem_range.mp ha
    have hb3 := List.mem_range.mp hb2
    omega
  refine ⟨hlist, by rw [hlist]; exact hpw, ?_, ?_⟩
  · rw [hlist]
    exact hpw.imp (fun h => Nat.ne_of_gt h)
  · intro i
    rw [hlist, List.mem_map]
    constructor
    · rintro ⟨j, hj, rfl⟩
      have hj2 := List.mem_range.mp hj
      omega
    · intro hi
      exact ⟨me.base + me.count - i, List.mem_range.mpr (by omega), by omega⟩

/-- Witness for C17: base 4 and five live entries, `log_delete(7)` pops
indices 9, 8, 7. -/
theorem log_delete_pop_order_witness :
    pop_idxs (calls_during (ex_log 4 5) (log_delete ex_env (ex_log 4 5) 7).2) = [9, 8, 7] :=
  (log_delete_pop_order ex_env (ex_log 4 5) 7 (by decide) (by decide) (by decide)
    (by decide) (by decide) (by decide)).1

/-- C17 (counterexample to the claim as stated): with `base = 2^64 - 2` and
`count = 2` (so `base + count` wraps to 0) and `idx = 1`, which satisfies
`1 <= idx <= base + count`, `log_delete` returns 0 and never calls the bound
pop callback. -/
theorem log_delete_wrapped_no_pop :
    0 < (ex_log 18446744073709551614 2).count
      ∧ 1 ≤ (ex_log 18446744073709551614 2).base + (ex_log 18446744073709551614 2).count
      ∧ (pop_hook (ex_log 18446744073709551614 2)).isSome = true
      ∧ (log_delete ex_env (ex_log 18446744073709551614 2) 1).1 = 0
      ∧ pop_idxs (log_delete ex_env (ex_log 18446744073709551614 2) 1).2.calls = [] := by
  decide

/-! ## C18 -/

/-- The append made by `log_load_from_snapshot` when the offer callback is
absent or accepts: code 0, `count` 1, `base` still 0. -/
theorem snapshot_append_accepted (env : raft_env σ) (me : log_private_t σ)
    (term : Nat) (ety0 : raft_entry_t)
    (hacc : ∀ offer, offer_hook me = some offer →
      (offer me.raft (snapshot_ety env term ety0) 1).1 = 0) :
    (log_append_entry env (log_clear me) (snapshot_ety env term ety0)).1 = 0
      ∧ (log_append_entry env (log_clear me) (snapshot_ety env term ety0)).2.count = 1 := by
  rw [log_append_entry_cleared]
  cases h : offer_hook me with
  | none => exact ⟨rfl, rfl⟩
  | some offer => simp [hacc offer h]

/-- Function `log_load_from_snapshot` does not check `idx`: for every prior
state and term, when the offer callback is absent or accepts the snapshot
entry, a call with `idx == 0` returns 0 and leaves `count` 1 and `base` equal
to `2^64 - 1`, the wrapped-around value of `idx - 1`. -/
theorem log_load_from_snapshot_zero (env : raft_env σ) (me : log_private_t σ)
    (term : Nat) (ety0 : raft_entry_t)
    (hacc : ∀ offer, offer_hook me = some offer →
      (offer me.raft (snapshot_ety env term ety0) 1).1 = 0) :
    ∃ me2, log_load_from_snapshot env me 0 term ety0 = some (0, me2)
      ∧ me2.base = ULONG_MOD - 1
      ∧ me2.count = 1 := by
  obtain ⟨hret, hcount⟩ := snapshot_append_accepted env me term ety0 hacc
  have hsub : ulong_sub 0 1 = ULONG_MOD - 1 := by
    unfold ulong_sub
    rw [if_neg (by omega), Nat.zero_add]
  refine ⟨{ (log_append_entry env (log_clear me) (snapshot_ety env term ety0)).2 with
              base := ULONG_MOD - 1 }, ?_, rfl, hcount⟩
  simp [log_load_from_snapshot, hret, hsub]

/-- An instance of `log_load_from_snapshot_zero`: index 0 and term 7 on a log
with base 3 and count 4. -/
theorem log_load_from_snapshot_zero_witness :
    ∃ me2, log_load_from_snapshot ex_env (ex_log 3 4) 0 7 raft_entry_zero = some (0, me2)
      ∧ me2.base = ULONG_MOD - 1 ∧ me2.count = 1 :=
  log_load_from_snapshot_zero ex_env (ex_log 3 4) 7 raft_entry_zero
    (by intro offer hb; cases (Option.some.inj hb); rfl)

/-- C18 (the code diverges): `log_load_from_snapshot(0, 7)` on a log with base
3 and count 4 is not rejected: it returns 0 and leaves
`base = 18446744073709551615 = 2^64 - 1` and `count = 1`. -/
theorem log_load_from_snapshot_zero_accepted :
    ((log_load_from_snapshot ex_env (ex_log 3 4) 0 7 raft_entry_zero).map
        fun r => (r.1, r.2.base, r.2.count)) = some (0, 18446744073709551615, 1) := by
  decide

/-! ## C19 -/

/-- C19: during `log_load_from_snapshot(idx, term)` with an offer callback
bound, for every `idx` and every prior state, the append it performs on the
cleared log calls the callback exactly once, with logical index 1 and the
snapshot entry, whether the callback accepts or not; the call aborts (at
`assert(0)`) only if the callback rejects in a build without `NDEBUG`, and
whenever it returns, the offer calls recorded since the call began are that
single call.  On success with `idx >= 1` the sentinel's final logical index
`base + count` is `idx`, so the index offered equals it only when
`idx == 1`. -/
theorem log_load_from_snapshot_offers_index_one (env : raft_env σ)
    (me : log_private_t σ) (idx term : Nat) (ety0 : raft_entry_t)
    (offer : σ → raft_entry_t → Nat → Int × raft_entry_t × σ)
    (hb : offer_hook me = some offer) :
    offer_idxs (calls_during (log_clear me)
        (log_append_entry env (log_clear me) (snapshot_ety env term ety0)).2) = [1]
      ∧ offer_etys (calls_during (log_clear me)
          (log_append_entry env (log_clear me) (snapshot_ety env term ety0)).2)
          = [snapshot_ety env term ety0]
      ∧ (∀ r, log_load_from_snapshot env me idx term ety0 = some r →
          offer_idxs (calls_during me r.2) = [1])
      ∧ (log_load_from_snapshot env me idx term ety0 = none
          ↔ ((offer me.raft (snapshot_ety env term ety0) 1).1 ≠ 0 ∧ env.NDEBUG = false))
      ∧ (∀ r, log_load_from_snapshot env me idx term ety0 = some r → r.1 = 0 → 1 ≤ idx →
          r.2.base + r.2.count = idx ∧ (1 = r.2.base + r.2.count ↔ idx = 1)) := by
  have happ : log_append_entry env (log_clear me) (snapshot_ety env term ety0)
      = if (offer me.raft (snapshot_ety env term ety0) 1).1 ≠ 0 then
          ((offer me.raft (snapshot_ety env term ety0) 1).1,
            { log_clear me with
                raft := (offer me.raft (snapshot_ety env term ety0) 1).2.2,
                calls := me.calls ++ [call_t.log_offer (snapshot_ety env term ety0) 1
                  (offer me.raft (snapshot_ety env term ety0) 1).1] })
        else
          (0, { log_clear me with
                  count := 1,
                  raft := env.raft_offer_log
                    (offer me.raft (snapshot_ety env term ety0) 1).2.2
                    (offer me.raft (snapshot_ety env term ety0) 1).2.1 1,
                  calls := me.calls ++
                    [call_t.log_offer (snapshot_ety env term ety0) 1
                       (offer me.raft (snapshot_ety env term ety0) 1).1,
                     call_t.raft_offer_log
                       (offer me.raft (snapshot_ety env term ety0) 1).2.1 1] }) := by
    rw [log_append_entry_cleared, hb]
  have hcalls : ∃ evs,
      (log_append_entry env (log_clear me) (snapshot_ety env term ety0)).2.calls
        = me.calls ++ evs
      ∧ offer_idxs evs = [1] ∧ offer_etys evs = [snapshot_ety env term ety0] := by
    rw [happ]
    by_cases hr : (offer me.raft (snapshot_ety env term ety0) 1).1 = 0
    · rw [if_neg (by simpa using hr)]
      exact ⟨_, rfl, rfl, rfl⟩
    · rw [if_pos hr]
      exact ⟨_, rfl, rfl, rfl⟩
  obtain ⟨evs, e1, e2, e3⟩ := hcalls
  have hcd : calls_during (log_clear me)
      (log_append_entry env (log_clear me) (snapshot_ety env term ety0)).2 = evs :=
    calls_during_append e1
  refine ⟨by rw [hcd, e2], by rw [hcd, e3], ?_, ?_, ?_⟩
  · intro r hr
    unfold log_load_from_snapshot at hr
    by_cases ha : (log_append_entry env (log_clear me) (snapshot_ety env term ety0)).1 = 0
    · simp only [ha, ne_eq, not_true_eq_false, if_false, Option.some.injEq] at hr
      rw [← hr]
      have : ({ (log_append_entry env (log_clear me) (snapshot_ety env term ety0)).2 with
          base := ulong_sub idx 1 } : log_private_t σ).calls = me.calls ++ evs := e1
      rw [calls_during_append this, e2]
    · simp only [ha, ne_eq, not_false_eq_true, if_true] at hr
      cases hn : env.NDEBUG with
      | false => simp [hn] at hr
      | true =>
        simp only [hn, if_true, Option.some.injEq] at hr
        rw [← hr]
        rw [calls_during_append e1, e2]
  · have hret : (log_append_entry env (log_clear me) (snapshot_ety env term ety0)).1
        = (offer me.raft (snapshot_ety env term ety0) 1).1 := by
      rw [happ]
      by_cases hr : (offer me.raft (snapshot_ety env term ety0) 1).1 = 0
      · rw [if_neg (by simpa using hr)]
        exact hr.symm
      · rw [if_pos hr]
    unfold log_load_from_snapshot
    rw [← hret]
    by_cases ha : (log_append_entry env (log_clear me) (snapshot_ety env term ety0)).1 = 0
    · simp [ha]
    · cases hn : env.NDEBUG <;> simp [ha, hn]
  · intro r hr h0 hidx
    unfold log_load_from_snapshot at hr
    by_cases ha : (log_append_entry env (log_clear me) (snapshot_ety env term ety0)).1 = 0
    · simp only [ha, ne_eq, not_true_eq_false, if_false, Option.some.injEq] at hr
      have hcount : (log_append_entry env (log_clear me)
          (snapshot_ety env term ety0)).2.count = 1 := by
        have hr0 : (offer me.raft (snapshot_ety env term ety0) 1).1 = 0 := by
          rw [happ] at ha
          by_contra hne
          rw [if_pos hne] at ha
          exact hne ha
        rw [happ, if_neg (by simpa using hr0)]
      have hbase : r.2.base = idx - 1 := by
        rw [← hr]
        exact ulong_dec (by omega)
      have hc2 : r.2.count = 1 := by
        rw [← hr]
        exact hcount
      rw [hbase, hc2]
      omega
    · simp only [ha, ne_eq, not_false_eq_true, if_true] at hr
      cases hn : env.NDEBUG with
      | false => simp [hn] at hr
      | true =>
        simp only [hn, if_true, Option.some.injEq] at hr
        rw [← hr] at h0
        exact absurd h0 ha

/-- Witness for C19: `log_load_from_snapshot(10, 3)` on a log with base 3 and
count 4 offers the snapshot entry at index 1 and ends with
`base + count == 10`. -/
theorem log_load_from_snapshot_offers_index_one_witness :
    offer_idxs (calls_during (log_clear (ex_log 3 4))
        (log_append_entry ex_env (log_clear (ex_log 3 4))
          (snapshot_ety ex_env 3 raft_entry_zero)).2) = [1]
      ∧ ∀ r, log_load_from_snapshot ex_env (ex_log 3 4) 10 3 raft_entry_zero = some r →
          offer_idxs (calls_during (ex_log 3 4) r.2) = [1] :=
  have h := log_load_from_snapshot_offers_index_one ex_env (ex_log 3 4) 10 3 raft_entry_zero
    _ rfl
  ⟨h.1, h.2.2.1⟩

/-! ## C20 -/

/-- Allowing the loop of `log_delete` more than `count` iterations never
changes its result: the loop ends within `count` iterations. -/
theorem log_delete_loop_fuel (env : raft_env σ) :
    ∀ (f1 f2 idx : Nat) (me : log_private_t σ), me.count ≤ f1 → me.count ≤ f2 →
      log_delete_loop env f1 idx me = log_delete_loop env f2 idx me := by
  intro f1
  induction f1 with
  | zero =>
    intro f2 idx me h1 _
    have hc0 : me.count = 0 := by omega
    cases f2 with
    | zero => rfl
    | succ m =>
      rw [log_delete_loop_succ, if_neg (by simp [hc0])]
      rfl
  | succ n ih =>
    intro f2 idx me h1 h2
    cases f2 with
    | zero =>
      have hc0 : me.count = 0 := by omega
      rw [log_delete_loop_succ, if_neg (by simp [hc0])]
      rfl
    | succ m =>
      rw [log_delete_loop_succ env n, log_delete_loop_succ env m]
      by_cases hcond : idx ≤ (me.base + me.count) % ULONG_MOD ∧ me.count ≠ 0
      · rw [if_pos hcond, if_pos hcond]
        have hdec : ulong_sub (log_delete_read env me).count 1 = me.count - 1 := by
          rw [(log_delete_read_spec env me).1]
          exact ulong_dec hcond.2
        cases hp : pop_hook (log_delete_read env me) with
        | none =>
          exact ih m idx _ (by simp only [hdec]; omega) (by simp only [hdec]; omega)
        | some pop =>
          by_cases hr0 : (pop (log_delete_read env me).raft
              ((me.base + me.count) % ULONG_MOD)).1 = 0
          · simp only [hr0, ne_eq, not_true_eq_false, if_false]
            exact ih m idx _ (by simp only [hdec]; omega) (by simp only [hdec]; omega)
          · simp only [hr0, ne_eq, not_false_eq_true, if_true]
      · rw [if_neg hcond, if_neg hcond]

/-- C20: `log_delete` returns for every state, every `idx` and every behaviour
of the callbacks: its loop ends within `count` iterations (allowing more never
changes the result, and when it returns 0 for a non-zero `idx` the loop
condition is false in the final state); it performs at most `count` iterations
and at most `count` pop calls, never increases `count` and never changes
`base`, whatever code it returns. -/
theorem log_delete_terminates (env : raft_env σ) (me : log_private_t σ) (idx : Nat) :
    (∀ fuel, me.count ≤ fuel → idx ≠ 0 →
        log_delete_loop env fuel (if idx < me.base then me.base else idx) me
          = log_delete env me idx)
      ∧ ((log_delete env me idx).1 = 0 → idx ≠ 0 →
          ¬ ((if idx < me.base then me.base else idx)
                ≤ (me.base + (log_delete env me idx).2.count) % ULONG_MOD
              ∧ (log_delete env me idx).2.count ≠ 0))
      ∧ (raft_pop_log_idxs (calls_during me (log_delete env me idx).2)).length ≤ me.count
      ∧ (pop_idxs (calls_during me (log_delete env me idx).2)).length ≤ me.count
      ∧ (log_delete env me idx).2.count ≤ me.count
      ∧ (log_delete env me idx).2.base = me.base := by
  by_cases h0 : idx = 0
  · have hr : log_delete env me idx = (-1, me) := by simp [log_delete, h0]
    rw [hr]
    refine ⟨fun _ _ h => absurd h0 h, fun _ h => absurd h0 h, ?_, ?_, le_refl _, rfl⟩
    · rw [calls_during_self]
      exact Nat.zero_le _
    · rw [calls_during_self]
      exact Nat.zero_le _
  · rw [log_delete_eq_loop env me idx h0]
    generalize (if idx < me.base then me.base else idx) = idx2
    obtain ⟨evs, i1, i2, _, i4, _, i6⟩ :=
      log_delete_loop_run env me.count idx2 me (le_refl _) _ rfl
    rw [calls_during_append i1]
    refine ⟨fun fuel hf _ => log_delete_loop_fuel env fuel me.count idx2 me hf (le_refl _),
      ?_, ?_, ?_, i4, i2⟩
    · intro hz _
      rcases i6 with ⟨_, _, j3, _, _⟩ | ⟨j1, _⟩
      · exact j3
      · exact absurd hz j1
    · rcases i6 with ⟨_, _, _, j4, _⟩ | ⟨_, _, _, j4, _, j6⟩
      · rw [j4]
        simp only [tail_idxs, List.length_map, List.length_range]
        omega
      · rw [j4]
        simp only [tail_idxs, List.length_map, List.length_range]
        omega
    · rcases i6 with ⟨_, _, _, _, j5⟩ | ⟨_, _, _, _, j5, j6⟩
      · rw [j5]
        split_ifs
        · simp only [tail_idxs, List.length_map, List.length_range]
          omega
        · exact Nat.zero_le _
      · rw [j5]
        simp only [tail_idxs, List.length_map, List.length_range]
        omega

/-- Witness for C20: five live entries and a pop callback that fails on its
third call: three iterations, three pop calls, `count` ends at 3. -/
theorem log_delete_terminates_witness :
    log_delete_loop ex_env 9 1 (ex_log_pop_fail 0 5) = log_delete ex_env (ex_log_pop_fail 0 5) 1
      ∧ (pop_idxs (calls_during (ex_log_pop_fail 0 5)
          (log_delete ex_env (ex_log_pop_fail 0 5) 1).2)).length ≤ 5
      ∧ (log_delete ex_env (ex_log_pop_fail 0 5) 1).2.count ≤ 5 :=
  have h := log_delete_terminates ex_env (ex_log_pop_fail 0 5) 1
  ⟨h.1 9 (by decide) (by decide), h.2.2.2.1, h.2.2.2.2.1⟩

end RaftLog
